import Mathlib

/-!
Verification of the zen-data-explorer backend (DuckDB query engine).

This file shallowly embeds the Python source of `src/backend/engine.py` and
`src/backend/code_runner.py` in Lean 4 and proves the frozen claims about it.
Python scalar values are modelled by `PyVal` (floats as exact rationals, with
explicit NaN/Inf constructors), fallible code by `Except`/`Option`, dicts by
association lists in insertion order.
-/

set_option maxHeartbeats 2000000

/-- Scalar values as they occur in the Python code: None, bool, int, float
(finite floats modelled as rationals; NaN and ±Inf as explicit constructors),
str, and date objects. -/
inductive PyVal where
  | vNone
  | vBool (b : Bool)
  | vInt (n : Int)
  | vFloat (q : ℚ)
  | vNan
  | vInf (neg : Bool)
  | vStr (s : String)
  | vDate (y m d : Nat)
deriving DecidableEq, Repr

/-- Embeds `DUCKDB_TYPE_MAP` from `engine.py` (insertion order preserved). -/
def DUCKDB_TYPE_MAP : List (String × String) :=
  [("VARCHAR", "string"),
   ("BOOLEAN", "boolean"),
   ("BIGINT", "integer"),
   ("INTEGER", "integer"),
   ("SMALLINT", "integer"),
   ("TINYINT", "integer"),
   ("HUGEINT", "integer"),
   ("UBIGINT", "integer"),
   ("UINTEGER", "integer"),
   ("USMALLINT", "integer"),
   ("UTINYINT", "integer"),
   ("DOUBLE", "float"),
   ("FLOAT", "float"),
   ("DECIMAL", "float"),
   ("DATE", "date"),
   ("TIMESTAMP", "date"),
   ("TIMESTAMP WITH TIME ZONE", "date"),
   ("TIME", "string"),
   ("INTERVAL", "string"),
   ("BLOB", "string")]

/-- Python `dict.get(key)` over an association list (dicts are modelled as
association lists in insertion order). -/
def alookup {α : Type} (m : List (String × α)) (k : String) : Option α :=
  match m with
  | [] => Option.none
  | (a, b) :: rest => if a = k then some b else alookup rest k

/-- Python `str.upper()` (the map's keys are ASCII, for which per-character
uppercasing coincides with Python's). -/
def pyStrUpper (s : String) : String := String.mk (s.toList.map Char.toUpper)

/-- Python whitespace test used by `str.strip()` (ASCII whitespace). -/
def isPySpace (c : Char) : Bool :=
  c = ' ' || c = '\t' || c = '\n' || c = '\r' || c.toNat = 11 || c.toNat = 12

/-- Python `str.strip()`. -/
def pyStrip (s : String) : String :=
  let l := s.toList.dropWhile isPySpace
  String.mk ((l.reverse.dropWhile isPySpace).reverse)

/-- Python `s.split("(")[0]`: everything before the first opening parenthesis. -/
def splitBeforeParen (s : String) : String :=
  String.mk (s.toList.takeWhile (fun c => !(c = '(')))

/-- Embeds `map_duckdb_type` from `engine.py`: uppercase, take the base type
before any parenthesis, strip, look up with default `"string"`. -/
def map_duckdb_type (t : String) : String :=
  let upper := pyStrUpper t
  let base := pyStrip (splitBeforeParen upper)
  (alookup DUCKDB_TYPE_MAP base).getD "string"

/-- The five semantic types of the application. -/
def SEMANTIC_TYPES : List String := ["string", "integer", "float", "date", "boolean"]

theorem alookup_getD_mem (S : List String) (d : String) (hd : d ∈ S) :
    ∀ (m : List (String × String)), (∀ p ∈ m, p.2 ∈ S) → ∀ k,
      ((alookup m k).getD d) ∈ S := by
  intro m
  induction m with
  | nil => intro _ k; simpa [alookup] using hd
  | cons p rest ih =>
    intro h k
    simp only [alookup]
    split
    · exact h p (List.mem_cons_self _ _)
    · exact ih (fun q hq => h q (List.mem_cons_of_mem _ hq)) k

/-- C9: `map_duckdb_type` is total into the five semantic types, defaulting to
`"string"` for unknown base types; parameterized types like `DECIMAL(18,4)`
resolve through their base, and `TIME`, `INTERVAL`, `BLOB` (explicit entries)
as well as arbitrary unrecognized strings yield `"string"`. -/
theorem c9_map_duckdb_type_total :
    (∀ t : String, map_duckdb_type t ∈ SEMANTIC_TYPES)
    ∧ map_duckdb_type "DECIMAL(18,4)" = "float"
    ∧ map_duckdb_type "TIME" = "string"
    ∧ map_duckdb_type "INTERVAL" = "string"
    ∧ map_duckdb_type "BLOB" = "string"
    ∧ map_duckdb_type "SOME UNKNOWN TYPE" = "string"
    ∧ map_duckdb_type "varchar" = "string" := by
  refine ⟨?_, by decide, by decide, by decide, by decide, by decide, by decide⟩
  intro t
  exact alookup_getD_mem SEMANTIC_TYPES "string" (by decide)
    DUCKDB_TYPE_MAP (by decide) _

/-! ## Code cell result shaping (`code_runner.py`) -/

/-- Embeds `MAX_PREVIEW_ROWS` from `code_runner.py`. -/
def MAX_PREVIEW_ROWS : Nat := 1000

/-- Embeds `_normalize_value` from `code_runner.py`: NaN / Inf floats become
None, dates become their ISO string, everything else passes through (the
numpy `.item()` unwrapping has no counterpart for plain `PyVal` scalars). -/
def normalizeValue : PyVal → PyVal
  | .vNan => .vNone
  | .vInf _ => .vNone
  | .vDate y m d =>
      .vStr (toString y ++ "-" ++
        (if m < 10 then "0" ++ toString m else toString m) ++ "-" ++
        (if d < 10 then "0" ++ toString d else toString d))
  | v => v

/-- A data frame is modelled by its column names and its rows, each row an
association list from column name to value (pandas `to_dict(orient="records")`). -/
structure Frame where
  columns : List String
  rows : List (List (String × PyVal))
deriving Repr, DecidableEq

/-- The JSON payload returned by `execute_python_code` for a frame result. -/
structure CellPayload where
  columns : List String
  rows : List (List (String × PyVal))
  rowCount : Nat
deriving Repr, DecidableEq

/-- Embeds `_rows_from_df` from `code_runner.py`: take `df.head(limit)`, return
`[]` when empty, else one normalized record per retained row. -/
def rowsFromDf (limit : Nat) (rows : List (List (String × PyVal))) :
    List (List (String × PyVal)) :=
  let head := rows.take limit
  if head.isEmpty then []
  else head.map (fun r => r.map (fun kv => (kv.1, normalizeValue kv.2)))

/-- Embeds the `pd.DataFrame` result branch of `execute_python_code`:
`rows` come from `_rows_from_df(result)` (capped at `MAX_PREVIEW_ROWS`),
`rowCount` is `len(result)` — the untruncated length. -/
def dataFrameResult (df : Frame) : CellPayload :=
  { columns := df.columns
    rows := rowsFromDf MAX_PREVIEW_ROWS df.rows
    rowCount := df.rows.length }

/-- C10: for a final expression yielding a frame with n rows, the response's
rows list has min(n, 1000) entries while rowCount reports the full n. -/
theorem c10_rowcount_untruncated (df : Frame) :
    (dataFrameResult df).rows.length = min df.rows.length MAX_PREVIEW_ROWS
    ∧ (dataFrameResult df).rowCount = df.rows.length := by
  constructor
  · show (rowsFromDf MAX_PREVIEW_ROWS df.rows).length = _
    unfold rowsFromDf
    by_cases h : (df.rows.take MAX_PREVIEW_ROWS).isEmpty
    · simp only [h, if_pos]
      have : df.rows.take MAX_PREVIEW_ROWS = [] := by
        simpa [List.isEmpty_iff] using h
      rcases List.take_eq_nil_iff.mp this with h1 | h1
      · simp [h1]
      · simp [h1, MAX_PREVIEW_ROWS] at *
    · simp only [h, if_neg, Bool.false_eq_true, not_false_iff]
      simp [List.length_take, Nat.min_comm]
  · rfl

/-! ## Identifier quoting, errors, value coercion, filter compiler -/

/-- Embeds `_quote_ident` from `engine.py`: wrap in double quotes, doubling
embedded double quotes. -/
def quoteIdent (s : String) : String :=
  "\"" ++ String.mk (s.toList.flatMap (fun c => if c = '"' then ['"', '"'] else [c])) ++ "\""

/-- The `ValueError`s raised by the engine, one constructor per raise site
(all of them surface as `InvalidRequest` / HTTP 400 at the boundary). -/
inductive EngErr where
  | filterColumnRequired
  | invalidFilterColumn (col : String)
  | filterOperatorRequired (col : String)
  | unsupportedOperator (op col typ : String)
  | unsupportedOperatorLate (op : String)
  | valueRequired (col op : String)
  | invalidIntValue (col : String)
  | invalidFloatValue (col : String)
  | invalidBoolValue (col : String)
  | invalidDateValue (col : String)
  | invalidCursor
  | pyConversionError
  | invalidCursorVersion
  | cursorSortColumnMismatch
  | cursorSortDirectionMismatch
  | cursorMissingRowAnchor
  | cursorMissingSortKey
  | unsupportedAggregationOp (op : String)
  | aggregationColumnRequired
  | invalidAggregationColumn (col : String)
  | aggregationRequiresNumeric (op col : String)
  | havingRequiresAggregation
  | havingRequiresGroupBy
  | havingMetricRequired
  | invalidHavingMetric (metric : String)
  | unsupportedHavingOperator (op metric : String)
deriving DecidableEq, Repr

/-- Whether an error is the filter compiler's unsupported-operator rejection
(either the per-type check or the unreachable trailing raise). -/
def EngErr.isUnsupportedOp : EngErr → Bool
  | .unsupportedOperator _ _ _ => true
  | .unsupportedOperatorLate _ => true
  | _ => false

/-- Digits of a decimal string, most significant first, as a number. -/
def digitsToNat (l : List Char) : Nat :=
  l.foldl (fun acc c => acc * 10 + (c.toNat - 48)) 0

/-- ASCII decimal digit test (Python `int()` accepts only decimal digits). -/
def isAsciiDigit (c : Char) : Bool := 48 ≤ c.toNat && c.toNat ≤ 57

/-- Python `int(str)`: strip whitespace, optional sign, decimal digits
(digit-group underscores are not modelled). -/
def parseIntStr (s : String) : Option Int :=
  let t := (s.toList.dropWhile isPySpace).reverse.dropWhile isPySpace |>.reverse
  match t with
  | '+' :: ds => if ds ≠ [] && ds.all isAsciiDigit then some (digitsToNat ds) else Option.none
  | '-' :: ds => if ds ≠ [] && ds.all isAsciiDigit then some (-(digitsToNat ds : Int)) else Option.none
  | ds => if ds ≠ [] && ds.all isAsciiDigit then some (digitsToNat ds) else Option.none

/-- Truncation toward zero, as Python `int(float)`. -/
def truncQ (q : ℚ) : Int := if 0 ≤ q then ⌊q⌋ else -⌊-q⌋

/-- Python `int(value)` over the scalar model; `Option.none` is the
`TypeError`/`ValueError` path caught by `_coerce_value`. -/
def pyInt : PyVal → Option Int
  | .vBool b => some (if b then 1 else 0)
  | .vInt n => some n
  | .vFloat q => some (truncQ q)
  | .vStr s => parseIntStr s
  | _ => Option.none

/-- Python `float(str)` on plain decimal literals (exponents, `inf`/`nan`
spellings and underscores are not modelled). -/
def parseFloatStr (s : String) : Option ℚ :=
  let t := (s.toList.dropWhile isPySpace).reverse.dropWhile isPySpace |>.reverse
  let core := fun (l : List Char) (sign : Int) =>
    let ip := l.takeWhile isAsciiDigit
    let rest := l.drop ip.length
    match rest with
    | [] => if ip ≠ [] then some ((sign * digitsToNat ip : Int) : ℚ) else Option.none
    | '.' :: fp =>
        if fp.all isAsciiDigit && (ip ≠ [] || fp ≠ []) then
          some ((sign : ℚ) * ((digitsToNat ip : ℚ) + (digitsToNat fp : ℚ) / (10 ^ fp.length : ℚ)))
        else Option.none
    | _ => Option.none
  match t with
  | '+' :: l => core l 1
  | '-' :: l => core l (-1)
  | l => core l 1

/-- Python `float(value)` over the scalar model. -/
def pyFloat : PyVal → Option PyVal
  | .vBool b => some (.vFloat (if b then 1 else 0))
  | .vInt n => some (.vFloat n)
  | .vFloat q => some (.vFloat q)
  | .vNan => some .vNan
  | .vInf b => some (.vInf b)
  | .vStr s => (parseFloatStr s).map PyVal.vFloat
  | _ => Option.none

/-- Python `str.lower()` (ASCII, enough for the boolean token sets). -/
def pyStrLower (s : String) : String := String.mk (s.toList.map Char.toLower)

/-- Days in a month, with Gregorian leap years (as `datetime.date`). -/
def daysInMonth (y m : Nat) : Nat :=
  if m = 2 then
    if y % 4 = 0 && (y % 100 ≠ 0 || y % 400 = 0) then 29 else 28
  else if m = 4 || m = 6 || m = 9 || m = 11 then 30
  else 31

/-- Python `date.fromisoformat` on the canonical `YYYY-MM-DD` form, re-emitted
as ISO (the identity on valid input). -/
def parseIsoDate (s : String) : Option String :=
  match s.toList with
  | [y1, y2, y3, y4, '-', m1, m2, '-', d1, d2] =>
      if [y1, y2, y3, y4, m1, m2, d1, d2].all isAsciiDigit then
        let m := digitsToNat [m1, m2]
        let d := digitsToNat [d1, d2]
        if 1 ≤ m && m ≤ 12 && 1 ≤ d && d ≤ daysInMonth (digitsToNat [y1, y2, y3, y4]) m
        then some s else Option.none
      else Option.none
  | _ => Option.none

/-- Python `str(value)` over the scalar model (float rendering is a display
placeholder; no claim depends on it). -/
def pyValStr : PyVal → String
  | .vNone => "None"
  | .vBool b => if b then "True" else "False"
  | .vInt n => toString n
  | .vFloat q => toString q
  | .vNan => "nan"
  | .vInf b => if b then "-inf" else "inf"
  | .vStr s => s
  | .vDate y m d =>
      toString y ++ "-" ++ (if m < 10 then "0" ++ toString m else toString m)
        ++ "-" ++ (if d < 10 then "0" ++ toString d else toString d)

/-- The boolean branch of `_coerce_value` for string inputs:
`value.strip().lower()` against the accepted truthy/falsy token sets. -/
def coerceBoolStr (s col : String) : Except EngErr PyVal :=
  let lowered := pyStrLower (pyStrip s)
  if lowered = "1" || lowered = "true" || lowered = "t" || lowered = "yes" || lowered = "y"
  then .ok (.vBool true)
  else if lowered = "0" || lowered = "false" || lowered = "f" || lowered = "no" || lowered = "n"
  then .ok (.vBool false)
  else .error (.invalidBoolValue col)

theorem coerceBoolStr_err (s col : String) (e : EngErr)
    (h : coerceBoolStr s col = .error e) : e = .invalidBoolValue col := by
  unfold coerceBoolStr at h
  by_cases h1 : (pyStrLower (pyStrip s) = "1" || pyStrLower (pyStrip s) = "true"
      || pyStrLower (pyStrip s) = "t" || pyStrLower (pyStrip s) = "yes"
      || pyStrLower (pyStrip s) = "y") = true
  · simp [h1] at h
  · by_cases h2 : (pyStrLower (pyStrip s) = "0" || pyStrLower (pyStrip s) = "false"
        || pyStrLower (pyStrip s) = "f" || pyStrLower (pyStrip s) = "no"
        || pyStrLower (pyStrip s) = "n") = true
    · simp [h1, h2] at h
    · simp [h1, h2] at h
      exact h.symm

/-- Embeds `_coerce_value` from `engine.py`. -/
def coerceValue (value : PyVal) (appType col op : String) : Except EngErr PyVal :=
  if value = .vNone then .error (.valueRequired col op)
  else if appType = "integer" then
    match pyInt value with
    | some n => .ok (.vInt n)
    | Option.none => .error (.invalidIntValue col)
  else if appType = "float" then
    match pyFloat value with
    | some v => .ok v
    | Option.none => .error (.invalidFloatValue col)
  else if appType = "boolean" then
    match value with
    | .vBool b => .ok (.vBool b)
    | .vStr s => coerceBoolStr s col
    | _ => .error (.invalidBoolValue col)
  else if appType = "date" then
    match value with
    | .vDate y m d => .ok (.vStr (pyValStr (.vDate y m d)))
    | .vStr s =>
        match parseIsoDate s with
        | some iso => .ok (.vStr iso)
        | Option.none => .error (.invalidDateValue col)
    | _ => .error (.invalidDateValue col)
  else .ok (.vStr (pyValStr value))

/-- Column metadata entry: DuckDB storage type and the mapped semantic type. -/
structure ColMeta where
  duck_type : String
  app_type : String
deriving DecidableEq, Repr

/-- A filter object; dict fields absent (or of the wrong runtime type, which
the source treats identically) are `Option.none`, a JSON `null` value is
`PyVal.vNone`. -/
structure FilterSpec where
  column : Option String
  operator : Option String
  value : PyVal
deriving DecidableEq, Repr

/-- Embeds `FILTER_OPERATORS_BY_TYPE` from `engine.py` (sets as lists). -/
def FILTER_OPERATORS_BY_TYPE : List (String × List String) :=
  [("string", ["=", "!=", "contains", "starts_with", "is_null", "is_not_null"]),
   ("integer", ["=", "!=", ">", "<", ">=", "<=", "is_null", "is_not_null"]),
   ("float", ["=", "!=", ">", "<", ">=", "<=", "is_null", "is_not_null"]),
   ("date", ["=", ">", "<", ">=", "<=", "is_null", "is_not_null"]),
   ("boolean", ["=", "!=", "is_null", "is_not_null"])]

/-- The operator set for a semantic type:
`FILTER_OPERATORS_BY_TYPE.get(app_type, FILTER_OPERATORS_BY_TYPE["string"])`. -/
def allowedOps (appType : String) : List String :=
  (alookup FILTER_OPERATORS_BY_TYPE appType).getD
    ["=", "!=", "contains", "starts_with", "is_null", "is_not_null"]

/-- The body of `_build_filter_clause` after the column/operator presence
checks and metadata lookup have succeeded (factored out for the proofs). -/
def buildFilterClauseChecked (col op : String) (meta : ColMeta) (rawVal : PyVal) :
    Except EngErr (String × List PyVal) :=
  let appType := meta.app_type
  if op ∉ allowedOps appType then .error (.unsupportedOperator op col appType)
  else
    let colSql := quoteIdent col
    if op = "is_null" then .ok (colSql ++ " IS NULL", [])
    else if op = "is_not_null" then .ok (colSql ++ " IS NOT NULL", [])
    else
      match coerceValue rawVal appType col op with
      | .error e => .error e
      | .ok value =>
        if op = "=" then .ok (colSql ++ " = ?", [value])
        else if op = "!=" then .ok (colSql ++ " != ?", [value])
        else if op = ">" then .ok (colSql ++ " > ?", [value])
        else if op = "<" then .ok (colSql ++ " < ?", [value])
        else if op = ">=" then .ok (colSql ++ " >= ?", [value])
        else if op = "<=" then .ok (colSql ++ " <= ?", [value])
        else if op = "contains" then
          .ok (colSql ++ " ILIKE ?", [.vStr ("%" ++ pyValStr value ++ "%")])
        else if op = "starts_with" then
          .ok (colSql ++ " ILIKE ?", [.vStr (pyValStr value ++ "%")])
        else .error (.unsupportedOperatorLate op)

/-- Embeds `_build_filter_clause` from `engine.py`: returns the predicate
fragment and its bind parameters, or the `ValueError` raised. -/
def buildFilterClause (f : FilterSpec) (colMeta : List (String × ColMeta)) :
    Except EngErr (String × List PyVal) :=
  match f.column with
  | Option.none => .error .filterColumnRequired
  | some col =>
    if col = "" then .error .filterColumnRequired
    else match alookup colMeta col with
    | Option.none => .error (.invalidFilterColumn col)
    | some meta =>
      match f.operator with
      | Option.none => .error (.filterOperatorRequired col)
      | some op =>
        if op = "" then .error (.filterOperatorRequired col)
        else buildFilterClauseChecked col op meta f.value

theorem coerceValue_err_not_unsupported (value : PyVal) (appType col op : String)
    (e : EngErr) (h : coerceValue value appType col op = .error e) :
    e.isUnsupportedOp = false := by
  unfold coerceValue at h
  repeat' split at h
  all_goals (first
    | (cases h; rfl)
    | (cases h.symm; rfl)
    | (exact Except.noConfusion h)
    | (cases coerceBoolStr_err _ _ _ h; rfl))

theorem buildFilterClause_factor (col op : String) (v : PyVal)
    (colMeta : List (String × ColMeta)) (meta : ColMeta)
    (hmeta : alookup colMeta col = some meta) (hcol : col ≠ "") (hop : op ≠ "") :
    buildFilterClause ⟨some col, some op, v⟩ colMeta
      = buildFilterClauseChecked col op meta v := by
  simp only [buildFilterClause, hmeta]
  rw [if_neg hcol, if_neg hop]

/-- The ten operators the compiler's dispatch chain handles. -/
def HANDLED_OPS : List String :=
  ["is_null", "is_not_null", "=", "!=", ">", "<", ">=", "<=", "contains", "starts_with"]

theorem allowedOps_subset_handled :
    ∀ t ∈ SEMANTIC_TYPES, ∀ o ∈ allowedOps t, o ∈ HANDLED_OPS := by decide

theorem checked_not_unsupported (col op : String) (meta : ColMeta) (v : PyVal)
    (hmem : op ∈ allowedOps meta.app_type) (hhandled : op ∈ HANDLED_OPS) :
    ∀ e, buildFilterClauseChecked col op meta v = .error e → e.isUnsupportedOp = false := by
  intro e h
  unfold buildFilterClauseChecked at h
  rw [if_neg (not_not_intro hmem)] at h
  simp only [HANDLED_OPS, List.mem_cons, List.not_mem_nil, or_false] at hhandled
  rcases hhandled with rfl|rfl|rfl|rfl|rfl|rfl|rfl|rfl|rfl|rfl <;>
    simp only [reduceIte, String.reduceEq] at h
  all_goals (try split at h)
  all_goals (first
    | (exact Except.noConfusion h)
    | (cases h; exact coerceValue_err_not_unsupported _ _ _ _ _ (by assumption)))

/-- C4: for every semantic type, a filter whose operator lies outside that
type's allowed set fails with the unsupported-operator `InvalidRequest`
error, while operators inside the set never fail for that reason (they can
only fail later, in value coercion). -/
theorem c4_filter_operator_whitelist
    (t : String) (ht : t ∈ SEMANTIC_TYPES)
    (op col : String) (v : PyVal) (colMeta : List (String × ColMeta)) (meta : ColMeta)
    (hmeta : alookup colMeta col = some meta) (htype : meta.app_type = t)
    (hcol : col ≠ "") (hop : op ≠ "") :
    (op ∉ allowedOps t →
        buildFilterClause ⟨some col, some op, v⟩ colMeta
          = .error (.unsupportedOperator op col t))
    ∧ (op ∈ allowedOps t →
        ∀ e, buildFilterClause ⟨some col, some op, v⟩ colMeta = .error e →
          e.isUnsupportedOp = false) := by
  constructor
  · intro hnot
    rw [buildFilterClause_factor col op v colMeta meta hmeta hcol hop]
    unfold buildFilterClauseChecked
    rw [htype, if_pos hnot]
  · intro hmem e h
    rw [buildFilterClause_factor col op v colMeta meta hmeta hcol hop] at h
    refine checked_not_unsupported col op meta v ?_ ?_ e h
    · rw [htype]; exact hmem
    · exact allowedOps_subset_handled t ht op hmem

/-- Witness for C4 at a concrete input: `>` is not allowed on a boolean
column (its compilation fails with the unsupported-operator error), while
`=` is allowed (and indeed succeeds here). -/
theorem c4_filter_operator_whitelist_witness :
    buildFilterClause ⟨some "flag", some ">", .vBool true⟩
        [("flag", ⟨"BOOLEAN", "boolean"⟩)]
      = .error (.unsupportedOperator ">" "flag" "boolean")
    ∧ buildFilterClause ⟨some "flag", some "=", .vBool true⟩
        [("flag", ⟨"BOOLEAN", "boolean"⟩)]
      = .ok ("\"flag\" = ?", [.vBool true]) := by
  constructor
  · exact (c4_filter_operator_whitelist "boolean" (by decide) ">" "flag" (.vBool true)
      [("flag", ⟨"BOOLEAN", "boolean"⟩)] ⟨"BOOLEAN", "boolean"⟩
      (by decide) rfl (by decide) (by decide)).1 (by decide)
  · rfl

/-! ## Table-query compiler: aggregations and HAVING (`run_table_query`) -/

/-- An aggregation object from a table-query spec; absent or non-string dict
fields are `Option.none`. -/
structure AggSpec where
  op : Option String
  column : Option String
  asName : Option String
deriving DecidableEq, Repr

/-- Embeds the `agg_ops` dict of `run_table_query`. -/
def AGG_OPS : List (String × String) :=
  [("count", "COUNT"), ("sum", "SUM"), ("avg", "AVG"), ("min", "MIN"), ("max", "MAX")]

/-- Python `col.replace("*", "all")`. -/
def replaceStar (s : String) : String :=
  String.mk (s.toList.flatMap (fun c => if c = '*' then ['a', 'l', 'l'] else [c]))

/-- The `safe_alias` computation of `run_table_query`: the provided alias if
it is a non-blank string, else `f"{op}_{col.replace(chr(42), chr(97)...)}"`. -/
def aggSafeAlias (asName : Option String) (op col : String) : String :=
  match asName with
  | some a => if pyStrip a ≠ "" then a else op ++ "_" ++ replaceStar col
  | Option.none => op ++ "_" ++ replaceStar col

/-- The `agg_alias_types` assignment of `run_table_query`: count is integer,
avg is float, a `*` target is float, otherwise the column's semantic type
(the final arm is only reached for columns present in the metadata). -/
def aggAliasType (op col : String) (colMeta : List (String × ColMeta)) : String :=
  if op = "count" then "integer"
  else if op = "avg" then "float"
  else if col = "*" then "float"
  else match alookup colMeta col with
    | some m => m.app_type
    | Option.none => "string"

/-- Embeds one iteration of the aggregation loop of `run_table_query`:
validates op / column / numeric requirement and produces the SELECT part,
the alias and its semantic type. -/
def compileAgg (colMeta : List (String × ColMeta)) (agg : AggSpec) :
    Except EngErr (String × String × String) :=
  match agg.op with
  | Option.none => .error (.unsupportedAggregationOp "None")
  | some op =>
    match alookup AGG_OPS op with
    | Option.none => .error (.unsupportedAggregationOp op)
    | some sqlOp =>
      match agg.column with
      | Option.none => .error .aggregationColumnRequired
      | some col =>
        if col = "" then .error .aggregationColumnRequired
        else if col = "*" then
          let safeAlias := aggSafeAlias agg.asName op col
          .ok (sqlOp ++ "(*) AS " ++ quoteIdent safeAlias, safeAlias,
            aggAliasType op col colMeta)
        else match alookup colMeta col with
          | Option.none => .error (.invalidAggregationColumn col)
          | some meta =>
            if (op = "sum" || op = "avg")
                && !(meta.app_type = "integer" || meta.app_type = "float")
            then .error (.aggregationRequiresNumeric op col)
            else
              let safeAlias := aggSafeAlias agg.asName op col
              .ok (sqlOp ++ "(" ++ quoteIdent col ++ ") AS " ++ quoteIdent safeAlias,
                safeAlias, aggAliasType op col colMeta)

/-- Python dict assignment `d[k] = v` on an association list: update in place
if present (keeping the original position), else append. -/
def aupdate {α : Type} : List (String × α) → String → α → List (String × α)
  | [], k, v => [(k, v)]
  | (a, b) :: rest, k, v =>
      if a = k then (a, v) :: rest else (a, b) :: aupdate rest k v

/-- The aggregation loop of `run_table_query`: accumulates SELECT parts (in
order) and the `agg_alias_types` dict. -/
def compileAggsAux (colMeta : List (String × ColMeta))
    (acc : List String × List (String × String)) :
    List AggSpec → Except EngErr (List String × List (String × String))
  | [] => .ok acc
  | agg :: rest =>
    match compileAgg colMeta agg with
    | .error e => .error e
    | .ok (part, aliasName, typ) =>
        compileAggsAux colMeta (acc.1 ++ [part], aupdate acc.2 aliasName typ) rest

/-- Validation and SQL-part compilation for the `aggregations` array of a
table-query spec, exactly as the loop in `run_table_query` performs it. -/
def compileAggs (colMeta : List (String × ColMeta)) (aggs : List AggSpec) :
    Except EngErr (List String × List (String × String)) :=
  compileAggsAux colMeta ([], []) aggs

/-- C7 (evaluation at the failing inputs): `run_table_query`'s validation
ACCEPTS `column="*"` with `min`, `max`, `sum` and `avg` — the sum/avg numeric
check explicitly skips the `*` target and no check restricts `*` to `count` —
emitting SQL aggregates like `MIN(*)` whose rejection is left to the SQL
engine; `*` with `count` is accepted as the claim states. -/
theorem c7_star_aggregation_not_validated :
    compileAggs [("amount", ⟨"DOUBLE", "float"⟩)] [⟨some "min", some "*", Option.none⟩]
      = .ok (["MIN(*) AS \"min_all\""], [("min_all", "float")])
    ∧ compileAggs [("amount", ⟨"DOUBLE", "float"⟩)] [⟨some "max", some "*", Option.none⟩]
      = .ok (["MAX(*) AS \"max_all\""], [("max_all", "float")])
    ∧ compileAggs [("amount", ⟨"DOUBLE", "float"⟩)] [⟨some "sum", some "*", Option.none⟩]
      = .ok (["SUM(*) AS \"sum_all\""], [("sum_all", "float")])
    ∧ compileAggs [("amount", ⟨"DOUBLE", "float"⟩)] [⟨some "avg", some "*", Option.none⟩]
      = .ok (["AVG(*) AS \"avg_all\""], [("avg_all", "float")])
    ∧ compileAggs [("amount", ⟨"DOUBLE", "float"⟩)] [⟨some "count", some "*", Option.none⟩]
      = .ok (["COUNT(*) AS \"count_all\""], [("count_all", "integer")]) :=
  ⟨rfl, rfl, rfl, rfl, rfl⟩

/-- Embeds `HAVING_OPERATORS` from `engine.py`. -/
def HAVING_OPERATORS : List String := ["=", "!=", ">", "<", ">=", "<="]

/-- A having object from a table-query spec. -/
structure HavingSpec where
  metric : Option String
  operator : Option String
  value : PyVal
deriving DecidableEq, Repr

/-- The per-item loop of the HAVING block of `run_table_query`: validates the
metric against the aggregation aliases and the operator against
`HAVING_OPERATORS`, coerces the value to the metric's semantic type, and
collects clause fragments and bind parameters in order. -/
def compileHavingItems (aliasTypes : List (String × String)) :
    List HavingSpec → Except EngErr (List String × List PyVal)
  | [] => .ok ([], [])
  | hv :: rest =>
    match hv.metric with
    | Option.none => .error .havingMetricRequired
    | some metric =>
      if metric = "" then .error .havingMetricRequired
      else match alookup aliasTypes metric with
      | Option.none => .error (.invalidHavingMetric metric)
      | some metricType =>
        match hv.operator with
        | Option.none => .error (.unsupportedHavingOperator "None" metric)
        | some op =>
          if op ∉ HAVING_OPERATORS then .error (.unsupportedHavingOperator op metric)
          else match coerceValue hv.value metricType metric op with
          | .error e => .error e
          | .ok value =>
            match compileHavingItems aliasTypes rest with
            | .error e => .error e
            | .ok (clauses, params) =>
                .ok ((quoteIdent metric ++ " " ++ op ++ " ?") :: clauses, value :: params)

/-- Embeds the HAVING block of `run_table_query`: nothing to do when the
`having` array is empty; otherwise aggregations and groupBy must both be
non-empty before the items are validated. -/
def compileHaving (hasAgg : Bool) (groupBy : List String)
    (aliasTypes : List (String × String)) (items : List HavingSpec) :
    Except EngErr (List String × List PyVal) :=
  if items.isEmpty then .ok ([], [])
  else if !hasAgg then .error .havingRequiresAggregation
  else if groupBy.isEmpty then .error .havingRequiresGroupBy
  else compileHavingItems aliasTypes items

theorem compileHavingItems_ok_props (aliasTypes : List (String × String))
    (items : List HavingSpec) (r : List String × List PyVal)
    (h : compileHavingItems aliasTypes items = .ok r) :
    ∀ hv ∈ items, ∃ m o, hv.metric = some m ∧ (alookup aliasTypes m).isSome
      ∧ hv.operator = some o ∧ o ∈ HAVING_OPERATORS := by
  induction items generalizing r with
  | nil => intro hv hmem; exact absurd hmem (List.not_mem_nil hv)
  | cons hd tl ih =>
    intro hv hmem
    unfold compileHavingItems at h
    rcases List.mem_cons.mp hmem with rfl | hmem'
    · repeat' split at h
      all_goals first
        | (exact Except.noConfusion h)
        | (refine ⟨_, _, by assumption, ?_, by assumption, ?_⟩
           · simp only [Option.isSome]
             split
             · rfl
             · simp_all
           · by_contra hc
             simp_all)
    · repeat' split at h
      all_goals first
        | (exact Except.noConfusion h)
        | (exact ih _ (by assumption) hv hmem')

/-- C8: with a non-empty `having` list, `run_table_query` fails with
`InvalidRequest` unless both aggregations and groupBy are non-empty; and any
accepted request has every having metric naming an alias produced by this
query's aggregations with an operator among `=`, `!=`, `>`, `<`, `>=`, `<=`. -/
theorem c8_having_requires_agg_and_groupby
    (colMeta : List (String × ColMeta)) (aggs : List AggSpec)
    (groupBy : List String) (items : List HavingSpec)
    (parts : List String) (aliasTypes : List (String × String))
    (hagg : compileAggs colMeta aggs = .ok (parts, aliasTypes)) :
    (items ≠ [] → aggs = [] →
      compileHaving (!aggs.isEmpty) groupBy aliasTypes items
        = .error .havingRequiresAggregation)
    ∧ (items ≠ [] → aggs ≠ [] → groupBy = [] →
      compileHaving (!aggs.isEmpty) groupBy aliasTypes items
        = .error .havingRequiresGroupBy)
    ∧ (∀ r, compileHaving (!aggs.isEmpty) groupBy aliasTypes items = .ok r →
        items ≠ [] →
        aggs ≠ [] ∧ groupBy ≠ []
        ∧ ∀ hv ∈ items, ∃ m o, hv.metric = some m ∧ (alookup aliasTypes m).isSome
            ∧ hv.operator = some o ∧ o ∈ HAVING_OPERATORS) := by
  refine ⟨?_, ?_, ?_⟩
  · intro hitems hempty
    subst hempty
    unfold compileHaving
    rw [if_neg (by simpa [List.isEmpty_iff] using hitems)]
    rfl
  · intro hitems hne hgb
    subst hgb
    unfold compileHaving
    rw [if_neg (by simpa [List.isEmpty_iff] using hitems)]
    rw [if_neg (by simpa [List.isEmpty_iff] using hne)]
    rfl
  · intro r hok hitems
    unfold compileHaving at hok
    rw [if_neg (by simpa [List.isEmpty_iff] using hitems)] at hok
    by_cases hne : aggs.isEmpty
    · rw [if_pos (by simp [hne])] at hok
      exact Except.noConfusion hok
    · rw [if_neg (by simp [hne])] at hok
      by_cases hgb : groupBy.isEmpty
      · rw [if_pos hgb] at hok
        exact Except.noConfusion hok
      · rw [if_neg hgb] at hok
        exact ⟨by simpa [List.isEmpty_iff] using hne,
          by simpa [List.isEmpty_iff] using hgb,
          compileHavingItems_ok_props aliasTypes items r hok⟩

/-- Witness for C8 at concrete inputs: a having item without aggregations is
rejected, and the scenario of the spec (`sum(amount) as amount_total`,
grouped by region, `having amount_total > 1000`) is accepted with the
compiled clause and bind parameter. -/
theorem c8_having_requires_agg_and_groupby_witness :
    compileHaving (!(([] : List AggSpec)).isEmpty) ["region"] []
        [⟨some "amount_total", some ">", .vInt 1000⟩]
      = .error .havingRequiresAggregation
    ∧ compileHaving true ["region"] [("amount_total", "float")]
        [⟨some "amount_total", some ">", .vInt 1000⟩]
      = .ok (["\"amount_total\" > ?"], [.vFloat 1000]) := by
  constructor
  · exact (c8_having_requires_agg_and_groupby [("amount", ⟨"DOUBLE", "float"⟩)] []
      ["region"] [⟨some "amount_total", some ">", .vInt 1000⟩] [] [] rfl).1
      (by simp) rfl
  · rfl

/-! ## JSON values, cursor payloads and the keyset predicate -/

/-- JSON values as produced by Python's `json` module: numbers split into
arbitrary-precision ints and floats (finite floats as rationals, plus the
non-standard `NaN` / `Infinity` tokens Python emits and accepts); objects are
member lists in insertion order. -/
inductive Json where
  | jnull
  | jbool (b : Bool)
  | jint (n : Int)
  | jfloat (q : ℚ)
  | jnan
  | jinf (neg : Bool)
  | jstr (s : String)
  | jarr (elems : List Json)
  | jobj (members : List (String × Json))

/-- Whether a JSON value is null. -/
def Json.isNull : Json → Bool
  | .jnull => true
  | _ => false

/-- Python `payload.get(k)` returning `Option.none` when the key is absent. -/
def jget : Json → String → Option Json
  | .jobj ms, k => alookup ms k
  | _, _ => Option.none

/-- Python `payload.get(k)` as a Python value: an absent key and a JSON null
both read as `None`. -/
def jgetPy (p : Json) (k : String) : Json := (jget p k).getD .jnull

/-- Python `k in payload`. -/
def jhasKey (p : Json) (k : String) : Bool := (jget p k).isSome

/-- Python truthiness `bool(x)` of a JSON value. -/
def jtruthy : Json → Bool
  | .jnull => false
  | .jbool b => b
  | .jint n => decide (n ≠ 0)
  | .jfloat q => decide (q ≠ 0)
  | .jnan => true
  | .jinf _ => true
  | .jstr s => decide (s ≠ "")
  | .jarr l => !l.isEmpty
  | .jobj m => !m.isEmpty

/-- Python `str(value)` of a JSON value (containers get a placeholder
rendering; no claim depends on it). -/
def jPyStr : Json → String
  | .jnull => "None"
  | .jbool b => if b then "True" else "False"
  | .jint n => toString n
  | .jfloat q => toString q
  | .jnan => "nan"
  | .jinf neg => if neg then "-inf" else "inf"
  | .jstr s => s
  | .jarr _ => "[...]"
  | .jobj _ => "{...}"

/-- Python `int(value)` of a JSON value (`Option.none` models the raised
`TypeError`/`ValueError`). -/
def jToInt : Json → Option Int
  | .jbool b => some (if b then 1 else 0)
  | .jint n => some n
  | .jfloat q => some (truncQ q)
  | .jstr s => parseIntStr s
  | _ => Option.none

/-- Membership of the truthy boolean token set `{1, true, t, yes, y}`. -/
def isTruthyTok (s : String) : Bool :=
  s = "1" || s = "true" || s = "t" || s = "yes" || s = "y"

/-- Embeds `_serialize_cursor_value` from `engine.py`: None and primitives
pass through, dates become ISO strings, anything else is stringified. -/
def serializeCursorValue : PyVal → Json
  | .vNone => .jnull
  | .vBool b => .jbool b
  | .vInt n => .jint n
  | .vFloat q => .jfloat q
  | .vNan => .jnan
  | .vInf neg => .jinf neg
  | .vStr s => .jstr s
  | .vDate y m d => .jstr (pyValStr (.vDate y m d))

/-- Embeds `_deserialize_cursor_value` from `engine.py`; `Option.none` models
an uncaught `int()`/`float()` conversion error. -/
def deserializeCursorValue (value : Json) (appType : String) : Option PyVal :=
  if value.isNull then some .vNone
  else if appType = "integer" then (jToInt value).map .vInt
  else if appType = "float" then
    match value with
    | .jint n => some (.vFloat n)
    | .jfloat q => some (.vFloat q)
    | .jbool b => some (.vFloat (if b then 1 else 0))
    | .jnan => some .vNan
    | .jinf neg => some (.vInf neg)
    | .jstr s => (parseFloatStr s).map .vFloat
    | _ => Option.none
  else if appType = "boolean" then
    match value with
    | .jbool b => some (.vBool b)
    | v => some (.vBool (isTruthyTok (pyStrLower (pyStrip (jPyStr v)))))
  else if appType = "date" then some (.vStr (jPyStr value))
  else some (.vStr (jPyStr value))

/-- Embeds the `next_cursor` payload construction of `get_page` (lines
367-381 of `engine.py`): `v`, `s`, `d`, `r` always; with a sort column the
fields `n` (whether the anchor value was NULL) and `k` (the serialized anchor
value) are BOTH set — `k` is JSON null when the anchor was NULL. -/
def buildNextCursorPayload (sortColumn : Option String) (sortDir : String)
    (sortVal : PyVal) (rowid : Int) : Json :=
  let base : List (String × Json) :=
    [("v", .jint 1),
     ("s", match sortColumn with | some c => .jstr c | Option.none => .jnull),
     ("d", .jstr sortDir),
     ("r", .jint rowid)]
  match sortColumn with
  | Option.none => .jobj base
  | some _ =>
      .jobj (base ++
        [("n", .jbool (decide (sortVal = .vNone))),
         ("k", serializeCursorValue sortVal)])

/-- The payload invariant exactly as the claim states it: `v=1`, and with a
sort column exactly one of "`n` is present and true" or "`k` is present". -/
def cursorPayloadClaimInvariant (sortColumn : Option String) (p : Json) : Prop :=
  jget p "v" = some (.jint 1)
  ∧ (sortColumn ≠ Option.none →
      Xor' (jget p "n" = some (.jbool true)) (jhasKey p "k" = true))

/-- C2 counterexample: when the page's last row has a NULL sort value, the
emitted payload has BOTH `n=true` and a (null-valued) `k` field, so the
claimed "exactly one of `n=true` or `k` present" invariant fails. -/
theorem c2_cursor_payload_counterexample :
    ¬ cursorPayloadClaimInvariant (some "g")
        (buildNextCursorPayload (some "g") "ASC" .vNone 7) := by
  intro h
  have hx := h.2 (by simp)
  rcases hx with ⟨_, hk⟩ | ⟨_, hn⟩
  · exact hk rfl
  · exact hn rfl

/-- C2 amended: every payload emitted by `get_page` has `v=1`; with a sort
column both `n` and `k` are present, `n` is true exactly when the anchor sort
value was NULL, and `k` is JSON null exactly in that same case (so exactly
one of `n=true` or "`k` present with a non-null value" holds). -/
theorem c2_cursor_payload_fields (sc : Option String) (dir : String)
    (val : PyVal) (r : Int) :
    jget (buildNextCursorPayload sc dir val r) "v" = some (.jint 1)
    ∧ (∀ c, sc = some c →
        jget (buildNextCursorPayload sc dir val r) "n"
            = some (.jbool (decide (val = .vNone)))
        ∧ jhasKey (buildNextCursorPayload sc dir val r) "k" = true
        ∧ (jget (buildNextCursorPayload sc dir val r) "k" = some .jnull
            ↔ val = .vNone)) := by
  constructor
  · cases sc <;> rfl
  · intro c hsc
    subst hsc
    refine ⟨rfl, rfl, ?_⟩
    cases val <;> simp [buildNextCursorPayload, jget, alookup, serializeCursorValue]

/-- Witness for C2 (amended) at a concrete input: a non-null string anchor
yields `n=false` and a non-null `k`. -/
theorem c2_cursor_payload_fields_witness :
    jget (buildNextCursorPayload (some "g") "ASC" (.vStr "a") 5) "v"
        = some (.jint 1)
    ∧ jget (buildNextCursorPayload (some "g") "ASC" (.vStr "a") 5) "n"
        = some (.jbool false)
    ∧ jhasKey (buildNextCursorPayload (some "g") "ASC" (.vStr "a") 5) "k" = true := by
  have h := c2_cursor_payload_fields (some "g") "ASC" (.vStr "a") 5
  refine ⟨h.1, ?_, (h.2 "g" rfl).2.1⟩
  have hn := (h.2 "g" rfl).1
  simpa using hn

/-- Embeds `_build_cursor_predicate` from `engine.py` after cursor decoding
(the decoding itself is the cursor codec, embedded separately): validates
version, sort column, direction and row anchor, then emits the keyset
predicate fragment with its bind parameters. The metadata lookup defaults to
`"string"` only in the branch `get_page` makes unreachable by validating the
sort column first. -/
def buildCursorPredicateFromPayload (payload : Json) (sortColumn : Option String)
    (sortDir : String) (colMeta : List (String × ColMeta)) :
    Except EngErr (String × List PyVal) :=
  match jgetPy payload "v" with
  | .jint 1 =>
    let sMatches : Bool :=
      match jgetPy payload "s", sortColumn with
      | .jnull, Option.none => true
      | .jstr s, some c => s = c
      | _, _ => false
    if !sMatches then .error .cursorSortColumnMismatch
    else
      let dMatches : Bool :=
        match jgetPy payload "d" with
        | .jstr d => d = sortDir
        | _ => false
      if !dMatches then .error .cursorSortDirectionMismatch
      else if !(jhasKey payload "r") then .error .cursorMissingRowAnchor
      else match jToInt (jgetPy payload "r") with
      | Option.none => .error .pyConversionError
      | some anchorRowid =>
        match sortColumn with
        | Option.none => .ok ("rowid > ?", [.vInt anchorRowid])
        | some sc =>
          let sortSql := quoteIdent sc
          let appType :=
            match alookup colMeta sc with
            | some m => m.app_type
            | Option.none => "string"
          let isNull := jtruthy (jgetPy payload "n")
          if isNull then
            if sortDir = "ASC" then
              .ok ("(" ++ sortSql ++ " IS NULL AND rowid > ?)", [.vInt anchorRowid])
            else
              .ok ("(" ++ sortSql ++ " IS NULL AND rowid < ?)", [.vInt anchorRowid])
          else if !(jhasKey payload "k") then .error .cursorMissingSortKey
          else match deserializeCursorValue (jgetPy payload "k") appType with
          | Option.none => .error .pyConversionError
          | some anchorValue =>
            if sortDir = "ASC" then
              .ok ("((" ++ sortSql ++ " > ?) OR (" ++ sortSql
                    ++ " = ? AND rowid > ?) OR " ++ sortSql ++ " IS NULL)",
                [anchorValue, anchorValue, .vInt anchorRowid])
            else
              .ok ("((" ++ sortSql ++ " < ?) OR (" ++ sortSql
                    ++ " = ? AND rowid < ?) OR " ++ sortSql ++ " IS NULL)",
                [anchorValue, anchorValue, .vInt anchorRowid])
  | _ => .error .invalidCursorVersion

/-- C1: the compiled keyset predicate has exactly the spec's shape: with no
sort column `rowid > ?` bound to the anchor rowid; with a sort column and a
NULL anchor `col IS NULL AND rowid > ?` (`<` under DESC); with a non-null
anchor `(col > ?) OR (col = ? AND rowid > ?) OR col IS NULL` (`<` under
DESC), the anchor value and rowid passed as bind parameters. -/
theorem c1_cursor_predicate_shapes
    (payload : Json) (colMeta : List (String × ColMeta)) (r : Int)
    (hv : jgetPy payload "v" = .jint 1)
    (hrk : jhasKey payload "r" = true)
    (hr : jgetPy payload "r" = .jint r) :
    ((jgetPy payload "s" = .jnull → jgetPy payload "d" = .jstr "ASC" →
      buildCursorPredicateFromPayload payload Option.none "ASC" colMeta
        = .ok ("rowid > ?", [.vInt r])))
    ∧ (∀ sc meta, alookup colMeta sc = some meta → jgetPy payload "s" = .jstr sc →
        (jtruthy (jgetPy payload "n") = true →
          (jgetPy payload "d" = .jstr "ASC" →
            buildCursorPredicateFromPayload payload (some sc) "ASC" colMeta
              = .ok ("(" ++ quoteIdent sc ++ " IS NULL AND rowid > ?)", [.vInt r]))
          ∧ (jgetPy payload "d" = .jstr "DESC" →
            buildCursorPredicateFromPayload payload (some sc) "DESC" colMeta
              = .ok ("(" ++ quoteIdent sc ++ " IS NULL AND rowid < ?)", [.vInt r])))
        ∧ (jtruthy (jgetPy payload "n") = false →
            jhasKey payload "k" = true →
            ∀ anchor,
              deserializeCursorValue (jgetPy payload "k") meta.app_type = some anchor →
              (jgetPy payload "d" = .jstr "ASC" →
                buildCursorPredicateFromPayload payload (some sc) "ASC" colMeta
                  = .ok ("((" ++ quoteIdent sc ++ " > ?) OR (" ++ quoteIdent sc
                        ++ " = ? AND rowid > ?) OR " ++ quoteIdent sc ++ " IS NULL)",
                    [anchor, anchor, .vInt r]))
              ∧ (jgetPy payload "d" = .jstr "DESC" →
                buildCursorPredicateFromPayload payload (some sc) "DESC" colMeta
                  = .ok ("((" ++ quoteIdent sc ++ " < ?) OR (" ++ quoteIdent sc
                        ++ " = ? AND rowid < ?) OR " ++ quoteIdent sc ++ " IS NULL)",
                    [anchor, anchor, .vInt r])))) := by
  constructor
  · intro hs hd
    simp only [buildCursorPredicateFromPayload, hv, hs, hd, hrk, hr, jToInt]
    rfl
  · intro sc meta hmeta hs
    constructor
    · intro hn
      constructor
      · intro hd
        simp only [buildCursorPredicateFromPayload, hv, hs, hd, hrk, hr, hn, hmeta, jToInt]
        simp
      · intro hd
        simp only [buildCursorPredicateFromPayload, hv, hs, hd, hrk, hr, hn, hmeta, jToInt]
        simp
    · intro hn hk anchor hanchor
      constructor
      · intro hd
        simp only [buildCursorPredicateFromPayload, hv, hs, hd, hrk, hr, hn, hk,
          hmeta, hanchor, jToInt]
        simp
      · intro hd
        simp only [buildCursorPredicateFromPayload, hv, hs, hd, hrk, hr, hn, hk,
          hmeta, hanchor, jToInt]
        simp

/-- Witness for C1 at a concrete input: resuming an ASC sort on string column
`g` from anchor value `"m"` at rowid 7 compiles to the three-disjunct keyset
predicate with bind parameters `["m", "m", 7]`. -/
theorem c1_cursor_predicate_shapes_witness :
    buildCursorPredicateFromPayload
        (.jobj [("v", .jint 1), ("s", .jstr "g"), ("d", .jstr "ASC"),
                ("r", .jint 7), ("n", .jbool false), ("k", .jstr "m")])
        (some "g") "ASC" [("g", ⟨"VARCHAR", "string"⟩)]
      = .ok ("((\"g\" > ?) OR (\"g\" = ? AND rowid > ?) OR \"g\" IS NULL)",
          [.vStr "m", .vStr "m", .vInt 7]) := by
  have h := (c1_cursor_predicate_shapes
    (.jobj [("v", .jint 1), ("s", .jstr "g"), ("d", .jstr "ASC"),
            ("r", .jint 7), ("n", .jbool false), ("k", .jstr "m")])
    [("g", ⟨"VARCHAR", "string"⟩)] 7 rfl rfl rfl).2 "g" ⟨"VARCHAR", "string"⟩ rfl rfl
  have h2 := (h.2 rfl rfl (.vStr "m") rfl).1 rfl
  simpa using h2

/-! ## Profiler: dominant value (`_profile_dominant_value`, `profile_column`) -/

/-- The GROUP BY result of the dominant-value queries: one count per distinct
non-null value (`vs` is the column's list of non-null values). -/
def groupCounts {α : Type} [DecidableEq α] (vs : List α) : List Nat :=
  vs.dedup.map (fun v => vs.count v)

/-- Embeds `_profile_dominant_value` from `engine.py`. The first query
(`ORDER BY cnt DESC LIMIT 2`) is modelled by the maximum group count and the
maximum of the remaining counts; `len(count_rows) > 1` is `2 ≤` the number of
groups. The second query (`ORDER BY cnt DESC, col ASC LIMIT 1`) is the least
value among those attaining the maximal count. Returns `(value?, count)` with
a `none` value marking a tie, as the source's `{"value": None, "count": c}`. -/
def profileDominantValue {α : Type} [DecidableEq α] [LinearOrder α]
    (vs : List α) : Option (Option α × Nat) :=
  match (groupCounts vs).max? with
  | Option.none => Option.none
  | some c1 =>
    if 2 ≤ vs.dedup.length ∧ ((groupCounts vs).erase c1).max? = some c1 then
      some (Option.none, c1)
    else
      match (vs.dedup.filter (fun v => vs.count v = c1)).min? with
      | Option.none => Option.none
      | some v => some (some v, vs.count v)

/-- Embeds lines 531-541 of `profile_column`: the reported `dominantValue`
field — absent (`Option.none`) when there is no dominant count, the string
`"none"` when the dominant value is a tie marker, else the value's string. -/
def reportDominantField (nonNull : Nat) (dv : Option String) (dc : Nat) :
    Option String :=
  if 0 < nonNull ∧ 0 < dc then
    match dv with
    | Option.none => some "none"
    | some s => some s
  else Option.none

/-- The `dominantValue` field of the profile report for a non-boolean column
with non-null values `vs` (stringified by `str`, as the source's `str(row[0])`). -/
def dominantReportField {α : Type} [DecidableEq α] [LinearOrder α]
    (str : α → String) (vs : List α) : Option String :=
  match profileDominantValue vs with
  | Option.none => reportDominantField vs.length Option.none 0
  | some (Option.none, c) => reportDominantField vs.length Option.none c
  | some (some v, c) => reportDominantField vs.length (some (str v)) c

/-- Embeds the boolean branch of `profile_column`: dominant side by count,
tie marked by a `none` value. -/
def booleanDominant (trueCount falseCount : Nat) : Option String × Nat :=
  if trueCount = falseCount then (Option.none, trueCount)
  else if trueCount > falseCount then (some "true", trueCount)
  else (some "false", falseCount)

theorem two_le_length_of_two_mem {α : Type} (l : List α) (a b : α)
    (ha : a ∈ l) (hb : b ∈ l) (hab : a ≠ b) : 2 ≤ l.length := by
  match l with
  | [] => cases ha
  | [x] =>
    rw [List.mem_singleton] at ha hb
    exact absurd (ha.trans hb.symm) hab
  | x :: y :: t => simp only [List.length]; omega

theorem groupCounts_count_le_one {α : Type} [DecidableEq α] (vs : List α) (v0 : α)
    (hstrict : ∀ w ∈ vs, w ≠ v0 → vs.count w < vs.count v0) :
    (groupCounts vs).count (vs.count v0) ≤ 1 := by
  have h1 : (groupCounts vs).count (vs.count v0)
      = List.countP (fun w => vs.count w == vs.count v0) vs.dedup := by
    rw [groupCounts, List.count_eq_countP, List.countP_map]
    rfl
  rw [h1]
  have h2 : List.countP (fun w => vs.count w == vs.count v0) vs.dedup
      ≤ List.countP (· == v0) vs.dedup := by
    apply List.countP_mono_left
    intro w hw hbeq
    have heq : vs.count w = vs.count v0 := by simpa using hbeq
    by_contra hne
    have hne' : w ≠ v0 := by simpa using hne
    exact absurd heq (Nat.ne_of_lt (hstrict w (List.mem_dedup.mp hw) hne'))
  calc List.countP (fun w => vs.count w == vs.count v0) vs.dedup
      ≤ List.countP (· == v0) vs.dedup := h2
    _ = vs.dedup.count v0 := (List.count_eq_countP _ _).symm
    _ ≤ 1 := List.nodup_iff_count_le_one.mp (List.nodup_dedup vs) v0

theorem profileDominant_unique_max {α : Type} [DecidableEq α] [LinearOrder α]
    (vs : List α) (v0 : α) (hv : v0 ∈ vs)
    (hstrict : ∀ w ∈ vs, w ≠ v0 → vs.count w < vs.count v0) :
    profileDominantValue vs = some (some v0, vs.count v0) := by
  have hmem : vs.count v0 ∈ groupCounts vs :=
    List.mem_map.mpr ⟨v0, List.mem_dedup.mpr hv, rfl⟩
  have hbound : ∀ b ∈ groupCounts vs, b ≤ vs.count v0 := by
    intro b hb
    obtain ⟨w, hw, rfl⟩ := List.mem_map.mp hb
    by_cases hwv : w = v0
    · subst hwv; exact le_refl _
    · exact le_of_lt (hstrict w (List.mem_dedup.mp hw) hwv)
  have hmax : (groupCounts vs).max? = some (vs.count v0) :=
    List.max?_eq_some_iff'.mpr ⟨hmem, hbound⟩
  have hnotie : ¬(2 ≤ vs.dedup.length
      ∧ ((groupCounts vs).erase (vs.count v0)).max? = some (vs.count v0)) := by
    rintro ⟨-, h⟩
    have hin : vs.count v0 ∈ (groupCounts vs).erase (vs.count v0) :=
      (List.max?_eq_some_iff'.mp h).1
    have h2 : 0 < ((groupCounts vs).erase (vs.count v0)).count (vs.count v0) :=
      List.count_pos_iff.mpr hin
    rw [List.count_erase_self] at h2
    have h3 := groupCounts_count_le_one vs v0 hstrict
    omega
  have hfilmin : (vs.dedup.filter (fun v => vs.count v = vs.count v0)).min?
      = some v0 := by
    have hanti : Std.Antisymm (fun (a b : α) => a ≤ b) :=
      ⟨fun h1 h2 => le_antisymm h1 h2⟩
    rw [List.min?_eq_some_iff (fun a => le_refl a) (fun a b => min_choice a b)
      (fun a b c => le_min_iff)]
    constructor
    · exact List.mem_filter.mpr ⟨List.mem_dedup.mpr hv, by simp⟩
    · intro b hb
      obtain ⟨hbd, hbc⟩ := List.mem_filter.mp hb
      have hbc' : vs.count b = vs.count v0 := by simpa using hbc
      by_cases hbv : b = v0
      · subst hbv; exact le_refl _
      · exact absurd hbc' (Nat.ne_of_lt (hstrict b (List.mem_dedup.mp hbd) hbv))
  unfold profileDominantValue
  rw [hmax]
  simp only [hnotie, if_neg, not_false_iff]
  rw [hfilmin]

theorem profileDominant_tie {α : Type} [DecidableEq α] [LinearOrder α]
    (vs : List α) (v1 v2 : α) (h1 : v1 ∈ vs) (h2 : v2 ∈ vs) (h12 : v1 ≠ v2)
    (hcnt : vs.count v1 = vs.count v2)
    (hall : ∀ w ∈ vs, vs.count w ≤ vs.count v1) :
    profileDominantValue vs = some (Option.none, vs.count v1) := by
  have hmem : vs.count v1 ∈ groupCounts vs :=
    List.mem_map.mpr ⟨v1, List.mem_dedup.mpr h1, rfl⟩
  have hbound : ∀ b ∈ groupCounts vs, b ≤ vs.count v1 := by
    intro b hb
    obtain ⟨w, hw, rfl⟩ := List.mem_map.mp hb
    exact hall w (List.mem_dedup.mp hw)
  have hmax : (groupCounts vs).max? = some (vs.count v1) :=
    List.max?_eq_some_iff'.mpr ⟨hmem, hbound⟩
  have hlen : 2 ≤ vs.dedup.length :=
    two_le_length_of_two_mem _ v1 v2 (List.mem_dedup.mpr h1) (List.mem_dedup.mpr h2) h12
  have hcount2 : 2 ≤ (groupCounts vs).count (vs.count v1) := by
    have heq : (groupCounts vs).count (vs.count v1)
        = List.countP (fun w => vs.count w == vs.count v1) vs.dedup := by
      rw [groupCounts, List.count_eq_countP, List.countP_map]
      rfl
    rw [heq, List.countP_eq_length_filter]
    refine two_le_length_of_two_mem _ v1 v2 ?_ ?_ h12
    · exact List.mem_filter.mpr ⟨List.mem_dedup.mpr h1, by simp⟩
    · exact List.mem_filter.mpr ⟨List.mem_dedup.mpr h2, by simp [hcnt]⟩
  have herase : ((groupCounts vs).erase (vs.count v1)).max? = some (vs.count v1) := by
    rw [List.max?_eq_some_iff']
    constructor
    · rw [← List.count_pos_iff, List.count_erase_self]
      omega
    · intro b hb
      exact hbound b (List.erase_subset _ _ hb)
  unfold profileDominantValue
  rw [hmax]
  have hcond : 2 ≤ vs.dedup.length
      ∧ ((groupCounts vs).erase (vs.count v1)).max? = some (vs.count v1) :=
    ⟨hlen, herase⟩
  simp [hcond]

/-- C5 counterexample: a column whose top two value counts are equal — here
the two values `"a"`, `"b"`, one occurrence each — has its dominant value
reported as the literal string `"none"`, not as null (absent field). -/
theorem c5_dominant_value_counterexample :
    dominantReportField id ["a", "b"] = some "none"
    ∧ some "none" ≠ (Option.none : Option String) := by
  constructor
  · rfl
  · intro h; cases h

/-- C5 amended: the reported dominant value is the single most frequent
non-null value (its string form) whenever one value is strictly most
frequent; when the top two value counts are equal — and for boolean columns
when true/false counts tie — the report carries the literal string `"none"`
(not null); for boolean columns the dominant side is the one with the larger
count. -/
theorem c5_dominant_value_report
    (α : Type) [inst1 : DecidableEq α] [inst2 : LinearOrder α]
    (str : α → String) (vs : List α) :
    (∀ v0, v0 ∈ vs → (∀ w ∈ vs, w ≠ v0 → vs.count w < vs.count v0) →
        dominantReportField str vs = some (str v0))
    ∧ (∀ v1 v2, v1 ∈ vs → v2 ∈ vs → v1 ≠ v2 → vs.count v1 = vs.count v2 →
        (∀ w ∈ vs, vs.count w ≤ vs.count v1) →
        dominantReportField str vs = some "none")
    ∧ (∀ t f : Nat,
        (f < t → booleanDominant t f = (some "true", t))
        ∧ (t < f → booleanDominant t f = (some "false", f))
        ∧ (t = f → 0 < t →
            reportDominantField (t + f) (booleanDominant t f).1 (booleanDominant t f).2
              = some "none")) := by
  refine ⟨?_, ?_, ?_⟩
  · intro v0 hv hstrict
    unfold dominantReportField
    rw [profileDominant_unique_max vs v0 hv hstrict]
    show reportDominantField vs.length (some (str v0)) (vs.count v0) = some (str v0)
    unfold reportDominantField
    rw [if_pos ⟨List.length_pos.mpr (List.ne_nil_of_mem hv),
      List.count_pos_iff.mpr hv⟩]
  · intro v1 v2 h1 h2 h12 hcnt hall
    unfold dominantReportField
    rw [profileDominant_tie vs v1 v2 h1 h2 h12 hcnt hall]
    show reportDominantField vs.length Option.none (vs.count v1) = some "none"
    unfold reportDominantField
    rw [if_pos ⟨List.length_pos.mpr (List.ne_nil_of_mem h1),
      List.count_pos_iff.mpr h1⟩]
  · intro t f
    refine ⟨?_, ?_, ?_⟩
    · intro h
      unfold booleanDominant
      rw [if_neg (by omega), if_pos h]
    · intro h
      unfold booleanDominant
      rw [if_neg (by omega), if_neg (by omega)]
    · intro heq hpos
      subst heq
      unfold booleanDominant
      rw [if_pos rfl]
      unfold reportDominantField
      rw [if_pos ⟨by omega, hpos⟩]

/-- Witness for C5 (amended) at concrete inputs: in `["a", "b", "b"]` the
strictly most frequent value `"b"` is reported; `["a", "b"]` ties and reports
the string `"none"`; boolean counts 3/2 report `"true"` and a 2/2 tie
reports `"none"`. -/
theorem c5_dominant_value_report_witness :
    dominantReportField id ["a", "b", "b"] = some "b"
    ∧ dominantReportField id ["a", "b"] = some "none"
    ∧ booleanDominant 3 2 = (some "true", 3)
    ∧ reportDominantField 4 (booleanDominant 2 2).1 (booleanDominant 2 2).2
        = some "none" := by
  have h := c5_dominant_value_report String id ["a", "b", "b"]
  have h2 := c5_dominant_value_report String id ["a", "b"]
  refine ⟨h.1 "b" (by decide) (by decide), ?_, ?_, ?_⟩
  · exact h2.2.1 "a" "b" (by decide) (by decide) (by decide) (by decide) (by decide)
  · exact (h.2.2 3 2).1 (by decide)
  · exact (h2.2.2 2 2).2.2 rfl (by decide)

/-! ## Profiler: numeric histogram (`_profile_histogram_numeric`) -/

/-- Python `round(x, 4)` (round half to even at 4 decimals, over exact
rationals standing in for doubles). -/
def round4 (q : ℚ) : ℚ :=
  let s := q * 10000
  let f : Int := ⌊s⌋
  let r := s - (f : ℚ)
  (((if r < 1/2 then f else if 1/2 < r then f + 1
     else if f % 2 = 0 then f else f + 1) : Int) : ℚ) / 10000

/-- One histogram entry `{bin, low, high, count}`. -/
structure HistBin where
  bin : Int
  low : ℚ
  high : ℚ
  count : Nat
deriving DecidableEq, Repr

/-- Embeds `_profile_histogram_numeric` from `engine.py` with its default
`bins = 20`, over the column's non-null values (doubles modelled as exact
rationals): empty when there are no rows or `min = max`; otherwise the SQL
groups rows by `FLOOR((v - lo) / width)` (`GROUP BY bin ORDER BY bin`,
modelled by sorting the distinct floor indices) and Python clamps each group
index into `[0, 19]` — so only non-empty groups appear, and the exact
maximum lands in a second entry with bin index 19. -/
def histogramNumeric (vs : List ℚ) : List HistBin :=
  match vs.min?, vs.max? with
  | some lo, some hi =>
    if lo = hi then []
    else
      let width := (hi - lo) / 20
      let idxs := vs.map (fun v => ⌊(v - lo) / width⌋)
      let groups := idxs.dedup.mergeSort (fun a b => a ≤ b)
      groups.map (fun b =>
        let idx : Int := max 0 (min b 19)
        let edge := lo + (idx : ℚ) * width
        { bin := idx, low := round4 edge, high := round4 (edge + width),
          count := idxs.count b })
  | _, _ => []

/-- C6 counterexample: a numeric column with one non-null value (min = max)
has an EMPTY histogram — not 20 equal-width bins — and its bin counts sum to
0, not to `nonNullCount = 1`. -/
theorem c6_histogram_counterexample :
    histogramNumeric [(5 : ℚ)] = []
    ∧ ((histogramNumeric [(5 : ℚ)]).map HistBin.count).sum ≠ [(5 : ℚ)].length
    ∧ (histogramNumeric [(5 : ℚ)]).length ≠ 20 := by
  have h : histogramNumeric [(5 : ℚ)] = [] := by
    unfold histogramNumeric
    rfl
  refine ⟨h, ?_, ?_⟩ <;> rw [h] <;> simp

theorem qmin_eq_some_iff {xs : List ℚ} {a : ℚ} :
    xs.min? = some a ↔ a ∈ xs ∧ ∀ b ∈ xs, a ≤ b := by
  haveI : Std.Antisymm (fun (x y : ℚ) => x ≤ y) := ⟨fun h1 h2 => le_antisymm h1 h2⟩
  exact List.min?_eq_some_iff (fun x => le_refl x) (fun x y => min_choice x y)
    (fun x y z => le_min_iff)

theorem qmax_eq_some_iff {xs : List ℚ} {a : ℚ} :
    xs.max? = some a ↔ a ∈ xs ∧ ∀ b ∈ xs, b ≤ a := by
  haveI : Std.Antisymm (fun (x y : ℚ) => x ≤ y) := ⟨fun h1 h2 => le_antisymm h1 h2⟩
  exact List.max?_eq_some_iff (fun x => le_refl x) (fun x y => max_choice x y)
    (fun x y z => max_le_iff)

/-- C6 amended: when a numeric column has at least two distinct non-null
values, the histogram's counts sum to `nonNullCount`, it lists only the
non-empty groups — at most 21 entries (the 20 bins plus the exact-maximum
group that Python clamps into bin 19) — and every entry's bin index lies in
`[0, 19]`; with fewer than two distinct non-null values it is empty. -/
theorem c6_histogram_sums (vs : List ℚ) :
    ((∀ a ∈ vs, ∀ b ∈ vs, a = b) → histogramNumeric vs = [])
    ∧ ((∃ a ∈ vs, ∃ b ∈ vs, a ≠ b) →
        ((histogramNumeric vs).map HistBin.count).sum = vs.length
        ∧ (histogramNumeric vs).length ≤ 21
        ∧ ∀ e ∈ histogramNumeric vs, 0 ≤ e.bin ∧ e.bin ≤ 19) := by
  constructor
  · intro hconst
    unfold histogramNumeric
    rcases h1 : vs.min? with _ | lo
    · rfl
    · rcases h2 : vs.max? with _ | hi
      · rfl
      · have hlo := qmin_eq_some_iff.mp h1
        have hhi := qmax_eq_some_iff.mp h2
        have heq := hconst lo hlo.1 hi hhi.1
        subst heq
        simp
  · rintro ⟨a, ha, b, hb, hab⟩
    rcases h1 : vs.min? with _ | lo
    · exact absurd (List.min?_eq_none_iff.mp h1) (List.ne_nil_of_mem ha)
    rcases h2 : vs.max? with _ | hi
    · exact absurd (List.max?_eq_none_iff.mp h2) (List.ne_nil_of_mem ha)
    have hlo := qmin_eq_some_iff.mp h1
    have hhi := qmax_eq_some_iff.mp h2
    have hlt : lo < hi := by
      rcases lt_or_eq_of_le (le_trans (hlo.2 a ha) (hhi.2 a ha)) with h | h
      · exact h
      · subst h
        have ha2 : a = lo := le_antisymm (hhi.2 a ha) (hlo.2 a ha)
        have hb2 : b = lo := le_antisymm (hhi.2 b hb) (hlo.2 b hb)
        exact absurd (ha2.trans hb2.symm) hab
    have hne : hi - lo ≠ 0 := by intro hc; rw [sub_eq_zero] at hc; exact absurd hc.symm (ne_of_lt hlt)
    have hw : (0 : ℚ) < (hi - lo) / 20 := by
      apply div_pos
      · linarith
      · norm_num
    have hhist : histogramNumeric vs
        = ((vs.map (fun v => ⌊(v - lo) / ((hi - lo) / 20)⌋)).dedup.mergeSort
            (fun a b => a ≤ b)).map (fun b =>
          { bin := max 0 (min b 19)
            low := round4 (lo + ((max 0 (min b 19) : Int) : ℚ) * ((hi - lo) / 20))
            high := round4 (lo + ((max 0 (min b 19) : Int) : ℚ) * ((hi - lo) / 20)
              + (hi - lo) / 20)
            count := (vs.map (fun v => ⌊(v - lo) / ((hi - lo) / 20)⌋)).count b }) := by
      unfold histogramNumeric
      rw [h1, h2]
      exact if_neg (ne_of_lt hlt)
    have hperm : ((vs.map (fun v => ⌊(v - lo) / ((hi - lo) / 20)⌋)).dedup.mergeSort
        (fun a b => a ≤ b)).Perm (vs.map (fun v => ⌊(v - lo) / ((hi - lo) / 20)⌋)).dedup :=
      List.mergeSort_perm _ _
    have hidx : ∀ x ∈ (vs.map (fun v => ⌊(v - lo) / ((hi - lo) / 20)⌋)).dedup,
        0 ≤ x ∧ x ≤ 20 := by
      intro x hx
      obtain ⟨v, hv, rfl⟩ := List.mem_map.mp (List.mem_dedup.mp hx)
      constructor
      · exact Int.floor_nonneg.mpr (div_nonneg (by linarith [hlo.2 v hv]) (le_of_lt hw))
      · have h20 : (hi - lo) / ((hi - lo) / 20) = 20 := by
          rw [div_div_eq_mul_div, mul_comm, mul_div_assoc, div_self hne, mul_one]
        have hle2 : (v - lo) / ((hi - lo) / 20) ≤ (hi - lo) / ((hi - lo) / 20) :=
          (div_le_div_iff_of_pos_right hw).mpr (by linarith [hhi.2 v hv])
        have hle : (v - lo) / ((hi - lo) / 20) ≤ 20 := by
          rw [h20] at hle2; exact hle2
        calc ⌊(v - lo) / ((hi - lo) / 20)⌋ ≤ ⌊(20 : ℚ)⌋ := Int.floor_le_floor hle
          _ = 20 := by norm_num
    refine ⟨?_, ?_, ?_⟩
    · rw [hhist, List.map_map]
      have hcomp : (HistBin.count ∘ fun b =>
          ({ bin := max 0 (min b 19)
             low := round4 (lo + ((max 0 (min b 19) : Int) : ℚ) * ((hi - lo) / 20))
             high := round4 (lo + ((max 0 (min b 19) : Int) : ℚ) * ((hi - lo) / 20)
               + (hi - lo) / 20)
             count := (vs.map (fun v => ⌊(v - lo) / ((hi - lo) / 20)⌋)).count b } : HistBin))
          = fun b => (vs.map (fun v => ⌊(v - lo) / ((hi - lo) / 20)⌋)).count b := rfl
      rw [hcomp, (hperm.map _).sum_eq, List.sum_map_count_dedup_eq_length,
        List.length_map]
    · rw [hhist, List.length_map, hperm.length_eq]
      have hnd := List.nodup_dedup (vs.map (fun v => ⌊(v - lo) / ((hi - lo) / 20)⌋))
      have hcard : ((vs.map (fun v => ⌊(v - lo) / ((hi - lo) / 20)⌋)).dedup).toFinset.card
          = ((vs.map (fun v => ⌊(v - lo) / ((hi - lo) / 20)⌋)).dedup).length :=
        List.toFinset_card_of_nodup hnd
      have hsub : ((vs.map (fun v => ⌊(v - lo) / ((hi - lo) / 20)⌋)).dedup).toFinset
          ⊆ Finset.Icc (0 : ℤ) 20 := by
        intro x hx
        have := hidx x (List.mem_toFinset.mp hx)
        exact Finset.mem_Icc.mpr this
      have := Finset.card_le_card hsub
      rw [hcard, Int.card_Icc] at this
      simpa using this
    · intro e he
      rw [hhist] at he
      obtain ⟨bidx, _, rfl⟩ := List.mem_map.mp he
      constructor
      · simp only []
        omega
      · simp only []
        omega

/-- Witness for C6 (amended) at a concrete input: the column `[0, 10]` has
two distinct values; its histogram counts sum to 2 and it has at most 21
entries. -/
theorem c6_histogram_sums_witness :
    ((histogramNumeric [(0 : ℚ), 10]).map HistBin.count).sum = 2
    ∧ (histogramNumeric [(0 : ℚ), 10]).length ≤ 21 := by
  have h := (c6_histogram_sums [(0 : ℚ), 10]).2
    ⟨0, by decide, 10, by decide, by decide⟩
  exact ⟨h.1, h.2.1⟩

/-! ## Cursor codec (`_encode_cursor` / `_decode_cursor`)

The codec is `base64.urlsafe_b64encode(json.dumps(payload,
separators=(",", ":")).encode("utf-8"))` with trailing `=` stripped, and its
inverse re-pads to a multiple of 4 and parses. The `json`, `base64` and
UTF-8 layers are collaborator (standard-library) behavior, modelled here
exactly — except for the rendering of finite non-integral floats, which
depends on binary floating point and is excluded from the round-trip
theorem via `jsonFloatFree`. -/

/-- Lowercase hex digit, as in Python's `\uXXXX` escapes. -/
def hexDigitChar (n : Nat) : Char :=
  if n < 10 then Char.ofNat (48 + n) else Char.ofNat (87 + n)

/-- A `\uXXXX` escape for a code unit `n < 0x10000`. -/
def escU (n : Nat) : List Char :=
  ['\\', 'u', hexDigitChar (n / 4096 % 16), hexDigitChar (n / 256 % 16),
   hexDigitChar (n / 16 % 16), hexDigitChar (n % 16)]

/-- Python `json.dumps` character escaping with `ensure_ascii=True`: the
two-character escapes for backslash, quote and the control shortcuts, a
`\uXXXX` escape for everything outside `0x20..0x7E` (a surrogate pair above
`0xFFFF`), and the character itself otherwise. -/
def escapeChar (c : Char) : List Char :=
  let n := c.toNat
  if c = '\\' then ['\\', '\\']
  else if c = '"' then ['\\', '"']
  else if n = 8 then ['\\', 'b']
  else if n = 9 then ['\\', 't']
  else if n = 10 then ['\\', 'n']
  else if n = 12 then ['\\', 'f']
  else if n = 13 then ['\\', 'r']
  else if n < 32 || 126 < n then
    if 65535 < n then
      escU (55296 + (n - 65536) / 1024) ++ escU (56320 + (n - 65536) % 1024)
    else escU n
  else [c]

/-- Escape a whole string body. -/
def escapeString (s : List Char) : List Char := s.flatMap escapeChar

/-- Decimal digits of a natural number, most significant first. -/
def natRep (n : Nat) : List Char :=
  if h : n < 10 then [Char.ofNat (48 + n)]
  else natRep (n / 10) ++ [Char.ofNat (48 + n % 10)]
termination_by n
decreasing_by exact Nat.div_lt_self (by omega) (by omega)

/-- Python `repr` of an int. -/
def intRep (n : Int) : List Char :=
  if n < 0 then '-' :: natRep n.natAbs else natRep n.natAbs

/-- Placeholder rendering for finite non-integral floats. Python renders
floats with the shortest decimal that round-trips the binary double — a
floating-point notion outside this embedding — so `jfloat` values are
excluded from the round-trip theorem (`jsonFloatFree`). -/
def floatReprPlaceholder (q : ℚ) : List Char := (toString q).toList

mutual
/-- Python `json.dumps(v, separators=(",", ":"))` with `ensure_ascii=True`
(the default), producing minified JSON; `NaN` / `Infinity` / `-Infinity`
are emitted for the non-finite floats (`allow_nan=True` default). -/
def jdump : Json → List Char
  | .jnull => ['n', 'u', 'l', 'l']
  | .jbool true => ['t', 'r', 'u', 'e']
  | .jbool false => ['f', 'a', 'l', 's', 'e']
  | .jint n => intRep n
  | .jfloat q => floatReprPlaceholder q
  | .jnan => ['N', 'a', 'N']
  | .jinf true => ['-', 'I', 'n', 'f', 'i', 'n', 'i', 't', 'y']
  | .jinf false => ['I', 'n', 'f', 'i', 'n', 'i', 't', 'y']
  | .jstr s => '"' :: (escapeString s.toList ++ ['"'])
  | .jarr [] => ['[', ']']
  | .jarr (x :: xs) => '[' :: (jdump x ++ jdumpArrTail xs ++ [']'])
  | .jobj [] => ['\x7b', '\x7d']
  | .jobj ((k, v) :: ms) =>
      '\x7b' :: ('"' :: (escapeString k.toList ++ '"' :: ':' :: jdump v)
        ++ jdumpObjTail ms ++ ['\x7d'])

/-- The `,`-separated remainder of an array body. -/
def jdumpArrTail : List Json → List Char
  | [] => []
  | x :: xs => ',' :: (jdump x ++ jdumpArrTail xs)

/-- The `,`-separated remainder of an object body. -/
def jdumpObjTail : List (String × Json) → List Char
  | [] => []
  | (k, v) :: ms =>
      ',' :: ('"' :: (escapeString k.toList ++ '"' :: ':' :: jdump v))
        ++ jdumpObjTail ms
end

mutual
/-- Whether a JSON value contains no finite float leaf. -/
def jsonFloatFree : Json → Bool
  | .jfloat _ => false
  | .jarr xs => jsonFloatFreeList xs
  | .jobj ms => jsonFloatFreeMembers ms
  | _ => true

/-- `jsonFloatFree` over array elements. -/
def jsonFloatFreeList : List Json → Bool
  | [] => true
  | x :: xs => jsonFloatFree x && jsonFloatFreeList xs

/-- `jsonFloatFree` over object members. -/
def jsonFloatFreeMembers : List (String × Json) → Bool
  | [] => true
  | (_, v) :: ms => jsonFloatFree v && jsonFloatFreeMembers ms
end

mutual
/-- Recursion fuel needed by the parser to consume a serialized value. -/
def jfuel : Json → Nat
  | .jarr [] => 1
  | .jarr (x :: xs) => 1 + max (jfuel x) (jtailFuel xs)
  | .jobj [] => 1
  | .jobj ((_, v) :: ms) => 1 + max (jfuel v) (jmtailFuel ms)
  | _ => 1

/-- Fuel needed by `parseArrTail` for the remaining elements. -/
def jtailFuel : List Json → Nat
  | [] => 1
  | x :: xs => 1 + max (jfuel x) (jtailFuel xs)

/-- Fuel needed by `parseObjTail` for the remaining members. -/
def jmtailFuel : List (String × Json) → Nat
  | [] => 1
  | (_, v) :: ms => 1 + max (jfuel v) (jmtailFuel ms)
end

/-- Hex digit value (`json.loads` accepts both cases). -/
def hexVal (c : Char) : Option Nat :=
  let n := c.toNat
  if 48 ≤ n && n ≤ 57 then some (n - 48)
  else if 97 ≤ n && n ≤ 102 then some (n - 87)
  else if 65 ≤ n && n ≤ 70 then some (n - 55)
  else Option.none

/-- Four hex digits as a code unit. -/
def hex4 (a b c d : Char) : Option Nat :=
  match hexVal a, hexVal b, hexVal c, hexVal d with
  | some x, some y, some z, some w => some (((x * 16 + y) * 16 + z) * 16 + w)
  | _, _, _, _ => Option.none

/-- Prepend a decoded character to a string-parse result. -/
def consStr (c : Char) : Option (List Char × List Char) → Option (List Char × List Char)
  | some (s, r) => some (c :: s, r)
  | Option.none => Option.none

mutual
/-- The string scanner of `json.loads` after an opening quote: plain
characters up to the closing quote, escape sequences via `parseEscape`;
strict mode rejects raw control characters. -/
def parseStringBody : List Char → Option (List Char × List Char)
  | [] => Option.none
  | c :: rest =>
    if c = '"' then some ([], rest)
    else if c = '\\' then parseEscape rest
    else if c.toNat < 32 then Option.none
    else consStr c (parseStringBody rest)
termination_by l => l.length
decreasing_by all_goals (simp only [List.length_cons]; omega)

/-- An escape sequence after a backslash. -/
def parseEscape : List Char → Option (List Char × List Char)
  | [] => Option.none
  | e :: r =>
    if e = 'u' then parseUnicodeEscape r
    else if e = '"' then consStr '"' (parseStringBody r)
    else if e = '\\' then consStr '\\' (parseStringBody r)
    else if e = '/' then consStr '/' (parseStringBody r)
    else if e = 'b' then consStr (Char.ofNat 8) (parseStringBody r)
    else if e = 'f' then consStr (Char.ofNat 12) (parseStringBody r)
    else if e = 'n' then consStr (Char.ofNat 10) (parseStringBody r)
    else if e = 'r' then consStr (Char.ofNat 13) (parseStringBody r)
    else if e = 't' then consStr (Char.ofNat 9) (parseStringBody r)
    else Option.none
termination_by l => l.length
decreasing_by all_goals (simp only [List.length_cons]; omega)

/-- A `\uXXXX` escape: a high surrogate expects a following low surrogate
(a lone surrogate — which Python would keep as an unpaired code unit, a
value `Char` cannot represent — is rejected). -/
def parseUnicodeEscape : List Char → Option (List Char × List Char)
  | h1 :: h2 :: h3 :: h4 :: r =>
    (match hex4 h1 h2 h3 h4 with
     | some n =>
       if 55296 ≤ n && n ≤ 56319 then parseLowSurrogate n r
       else if 56320 ≤ n && n ≤ 57343 then Option.none
       else consStr (Char.ofNat n) (parseStringBody r)
     | Option.none => Option.none)
  | _ => Option.none
termination_by l => l.length
decreasing_by all_goals (simp only [List.length_cons]; omega)

/-- The low half of a surrogate pair, combined with the pending high half. -/
def parseLowSurrogate (n : Nat) : List Char → Option (List Char × List Char)
  | e :: u :: g1 :: g2 :: g3 :: g4 :: r2 =>
    if e = '\\' && u = 'u' then
      (match hex4 g1 g2 g3 g4 with
       | some m =>
         if 56320 ≤ m && m ≤ 57343 then
           consStr (Char.ofNat (65536 + (n - 55296) * 1024 + (m - 56320)))
             (parseStringBody r2)
         else Option.none
       | Option.none => Option.none)
    else Option.none
  | _ => Option.none
termination_by l => l.length
decreasing_by all_goals (simp only [List.length_cons]; omega)
end

/-- Maximal run of decimal digits as a number (`Option.none` if empty). -/
def parseNatToken (l : List Char) : Option (Nat × List Char) :=
  let ds := l.takeWhile isAsciiDigit
  if ds.isEmpty then Option.none
  else some (digitsToNat ds, l.drop ds.length)

/-- An integer literal of `json.loads`. A following `.`, `e` or `E` would
make it a float literal, which is outside this embedding (floats are
excluded from the round-trip theorem). -/
def parseIntToken (l : List Char) (neg : Bool) : Option (Json × List Char) :=
  match parseNatToken l with
  | Option.none => Option.none
  | some (m, rest) =>
    match rest with
    | c :: _ =>
        if c = '.' || c = 'e' || c = 'E' then Option.none
        else some (.jint (if neg then -(m : Int) else (m : Int)), rest)
    | [] => some (.jint (if neg then -(m : Int) else (m : Int)), [])

mutual
/-- The value scanner of `json.loads` on minified input (no whitespace
handling, as `json.dumps` with the engine's separators emits none), fueled
to make the nested recursion structural. -/
def parseJson : Nat → List Char → Option (Json × List Char)
  | 0, _ => Option.none
  | Nat.succ fuel, l =>
    match l with
    | [] => Option.none
    | c :: rest =>
      if c = 'n' then
        (match rest with
         | 'u' :: 'l' :: 'l' :: r => some (.jnull, r)
         | _ => Option.none)
      else if c = 't' then
        (match rest with
         | 'r' :: 'u' :: 'e' :: r => some (.jbool true, r)
         | _ => Option.none)
      else if c = 'f' then
        (match rest with
         | 'a' :: 'l' :: 's' :: 'e' :: r => some (.jbool false, r)
         | _ => Option.none)
      else if c = 'N' then
        (match rest with
         | 'a' :: 'N' :: r => some (.jnan, r)
         | _ => Option.none)
      else if c = 'I' then
        (match rest with
         | 'n' :: 'f' :: 'i' :: 'n' :: 'i' :: 't' :: 'y' :: r => some (.jinf false, r)
         | _ => Option.none)
      else if c = '"' then
        (match parseStringBody rest with
         | some (s, r) => some (.jstr (String.mk s), r)
         | Option.none => Option.none)
      else if c = '[' then
        (match rest with
         | ']' :: r => some (.jarr [], r)
         | _ =>
           match parseJson fuel rest with
           | some (v, r) =>
             (match parseArrTail fuel r with
              | some (vs, r2) => some (.jarr (v :: vs), r2)
              | Option.none => Option.none)
           | Option.none => Option.none)
      else if c = '\x7b' then
        (match rest with
         | '\x7d' :: r => some (.jobj [], r)
         | '"' :: rest2 =>
           (match parseStringBody rest2 with
            | some (k, r) =>
              (match r with
               | ':' :: r2 =>
                 (match parseJson fuel r2 with
                  | some (v, r3) =>
                    (match parseObjTail fuel r3 with
                     | some (ms, r4) => some (.jobj ((String.mk k, v) :: ms), r4)
                     | Option.none => Option.none)
                  | Option.none => Option.none)
               | _ => Option.none)
            | Option.none => Option.none)
         | _ => Option.none)
      else if c = '-' then
        (match rest with
         | 'I' :: 'n' :: 'f' :: 'i' :: 'n' :: 'i' :: 't' :: 'y' :: r => some (.jinf true, r)
         | _ => parseIntToken rest true)
      else if isAsciiDigit c then parseIntToken (c :: rest) false
      else Option.none

/-- After one array element: a closing bracket or a comma and further
elements. -/
def parseArrTail : Nat → List Char → Option (List Json × List Char)
  | 0, _ => Option.none
  | Nat.succ fuel, l =>
    match l with
    | ']' :: r => some ([], r)
    | ',' :: rest =>
      (match parseJson fuel rest with
       | some (v, r) =>
         (match parseArrTail fuel r with
          | some (vs, r2) => some (v :: vs, r2)
          | Option.none => Option.none)
       | Option.none => Option.none)
    | _ => Option.none

/-- After one object member: a closing brace or a comma and further
members. -/
def parseObjTail : Nat → List Char → Option (List (String × Json) × List Char)
  | 0, _ => Option.none
  | Nat.succ fuel, l =>
    match l with
    | '\x7d' :: r => some ([], r)
    | ',' :: '"' :: rest =>
      (match parseStringBody rest with
       | some (k, r) =>
         (match r with
          | ':' :: r2 =>
            (match parseJson fuel r2 with
             | some (v, r3) =>
               (match parseObjTail fuel r3 with
                | some (ms, r4) => some ((String.mk k, v) :: ms, r4)
                | Option.none => Option.none)
             | Option.none => Option.none)
          | _ => Option.none)
       | Option.none => Option.none)
    | _ => Option.none
end

/-- Python `json.loads` on a full (minified) document: parse one value and
require the input to be exhausted. -/
def jloads (l : List Char) : Option Json :=
  match parseJson (l.length + 1) l with
  | some (v, []) => some v
  | _ => Option.none

/-- UTF-8 encoding of one scalar value (`str.encode("utf-8")`). -/
def utf8EncodeChar (c : Char) : List Nat :=
  let n := c.toNat
  if n < 128 then [n]
  else if n < 2048 then [192 + n / 64, 128 + n % 64]
  else if n < 65536 then [224 + n / 4096, 128 + n / 64 % 64, 128 + n % 64]
  else [240 + n / 262144, 128 + n / 4096 % 64, 128 + n / 64 % 64, 128 + n % 64]

/-- UTF-8 encoding of a string, as a byte list. -/
def utf8Encode (l : List Char) : List Nat := l.flatMap utf8EncodeChar

/-- Continuation byte test. -/
def isUtf8Cont (b : Nat) : Bool := 128 ≤ b && b ≤ 191

/-- UTF-8 decoding (`bytes.decode("utf-8")`, strict): validates leading
bytes, continuation bytes, overlong forms, surrogates and the 0x10FFFF
ceiling; fueled by the input length to keep the recursion structural. -/
def utf8DecodeAux (fuel : Nat) (l : List Nat) : Option (List Char) :=
  match fuel with
  | 0 => (match l with | [] => some [] | _ => Option.none)
  | Nat.succ fuel =>
    match l with
    | [] => some []
    | b :: rest =>
      if b ≤ 127 then (utf8DecodeAux fuel rest).map (fun cs => Char.ofNat b :: cs)
      else if 194 ≤ b && b ≤ 223 then
        (match rest with
         | b2 :: rest2 =>
           if isUtf8Cont b2 then
             (utf8DecodeAux fuel rest2).map
               (fun cs => Char.ofNat ((b - 192) * 64 + (b2 - 128)) :: cs)
           else Option.none
         | [] => Option.none)
      else if 224 ≤ b && b ≤ 239 then
        (match rest with
         | b2 :: b3 :: rest2 =>
           if (if b = 224 then 160 ≤ b2 && b2 ≤ 191
               else if b = 237 then 128 ≤ b2 && b2 ≤ 159
               else isUtf8Cont b2) && isUtf8Cont b3 then
             (utf8DecodeAux fuel rest2).map
               (fun cs => Char.ofNat ((b - 224) * 4096 + (b2 - 128) * 64 + (b3 - 128)) :: cs)
           else Option.none
         | _ => Option.none)
      else if 240 ≤ b && b ≤ 244 then
        (match rest with
         | b2 :: b3 :: b4 :: rest2 =>
           if (if b = 240 then 144 ≤ b2 && b2 ≤ 191
               else if b = 244 then 128 ≤ b2 && b2 ≤ 143
               else isUtf8Cont b2) && isUtf8Cont b3 && isUtf8Cont b4 then
             (utf8DecodeAux fuel rest2).map
               (fun cs => Char.ofNat ((b - 240) * 262144 + (b2 - 128) * 4096
                 + (b3 - 128) * 64 + (b4 - 128)) :: cs)
           else Option.none
         | _ => Option.none)
      else Option.none

/-- UTF-8 decoding of a whole byte list. -/
def utf8DecodeAll (l : List Nat) : Option (List Char) := utf8DecodeAux l.length l

/-- The URL-safe base64 alphabet (`-` and `_` for 62 and 63). -/
def B64_ALPHABET : List Char :=
  "ABCDEFGHIJKLMNOPQRSTUVWXYZabcdefghijklmnopqrstuvwxyz0123456789-_".toList

/-- Character for a sextet. -/
def sextetChar (n : Nat) : Char := B64_ALPHABET.getD n 'A'

/-- Sextet for a character (`Option.none` outside the alphabet). -/
def charSextet (c : Char) : Option Nat := B64_ALPHABET.findIdx? (fun x => x = c)

/-- `base64.urlsafe_b64encode`: 3 bytes to 4 chars, `=`-padded tail. -/
def b64EncodePadded : List Nat → List Char
  | a :: b :: c :: rest =>
      sextetChar (a / 4) :: sextetChar ((a % 4) * 16 + b / 16) ::
      sextetChar ((b % 16) * 4 + c / 64) :: sextetChar (c % 64) :: b64EncodePadded rest
  | [a, b] => [sextetChar (a / 4), sextetChar ((a % 4) * 16 + b / 16),
      sextetChar ((b % 16) * 4), '=']
  | [a] => [sextetChar (a / 4), sextetChar ((a % 4) * 16), '=', '=']
  | [] => []

/-- Python `.rstrip(chr(61))` on the encoded token. -/
def rstripEq (l : List Char) : List Char :=
  (l.reverse.dropWhile (fun c => c = '=')).reverse

/-- The stripped encoding, written directly (proved equal to
`rstripEq ∘ b64EncodePadded`). -/
def b64Stripped : List Nat → List Char
  | a :: b :: c :: rest =>
      sextetChar (a / 4) :: sextetChar ((a % 4) * 16 + b / 16) ::
      sextetChar ((b % 16) * 4 + c / 64) :: sextetChar (c % 64) :: b64Stripped rest
  | [a, b] => [sextetChar (a / 4), sextetChar ((a % 4) * 16 + b / 16),
      sextetChar ((b % 16) * 4)]
  | [a] => [sextetChar (a / 4), sextetChar ((a % 4) * 16)]
  | [] => []

/-- The re-padding `token + "=" * (-len(token) % 4)` of `_decode_cursor`. -/
def b64pad (l : List Char) : List Char :=
  l ++ List.replicate ((4 - l.length % 4) % 4) '='

/-- `base64.urlsafe_b64decode` on padded input: 4 chars to 3 bytes, with
`=` padding allowed only at the very end. -/
def b64DecodePadded : List Char → Option (List Nat)
  | [] => some []
  | c1 :: c2 :: c3 :: c4 :: rest =>
    (match charSextet c1, charSextet c2 with
     | some s1, some s2 =>
       if c3 = '=' then
         if c4 = '=' && rest.isEmpty then some [s1 * 4 + s2 / 16] else Option.none
       else
         (match charSextet c3 with
          | some s3 =>
            if c4 = '=' then
              if rest.isEmpty then some [s1 * 4 + s2 / 16, (s2 % 16) * 16 + s3 / 4]
              else Option.none
            else
              (match charSextet c4 with
               | some s4 =>
                 (match b64DecodePadded rest with
                  | some bs => some ((s1 * 4 + s2 / 16) :: ((s2 % 16) * 16 + s3 / 4)
                      :: ((s3 % 4) * 64 + s4) :: bs)
                  | Option.none => Option.none)
               | Option.none => Option.none)
          | Option.none => Option.none)
     | _, _ => Option.none)
  | _ => Option.none

/-- Embeds `_encode_cursor` from `engine.py`: minified JSON, UTF-8 bytes,
URL-safe base64, trailing `=` stripped. -/
def encodeCursor (p : Json) : List Char :=
  rstripEq (b64EncodePadded (utf8Encode (jdump p)))

/-- Embeds `_decode_cursor` from `engine.py`: re-pad to a multiple of 4,
base64-decode, UTF-8-decode, parse JSON, require an object; every failure
is the single `Invalid cursor` error. -/
def decodeCursor (token : List Char) : Except EngErr Json :=
  match b64DecodePadded (b64pad token) with
  | Option.none => .error .invalidCursor
  | some bytes =>
    match utf8DecodeAll bytes with
    | Option.none => .error .invalidCursor
    | some chars =>
      match jloads chars with
      | Option.none => .error .invalidCursor
      | some v =>
        match v with
        | .jobj ms => .ok (.jobj ms)
        | _ => .error .invalidCursor

theorem charSextet_sextetChar : ∀ n < 64, charSextet (sextetChar n) = some n := by decide

theorem sextetChar_ne_pad (n : Nat) : ¬ sextetChar n = '=' := by
  by_cases h : n < 64
  · exact (by decide : ∀ m < 64, ¬ sextetChar m = '=') n h
  · unfold sextetChar
    rw [List.getD_eq_default]
    · decide
    · have : B64_ALPHABET.length = 64 := by decide
      omega

theorem rstripEq_cons (x : Char) (l : List Char) (hx : ¬ x = '=') :
    rstripEq (x :: l) = x :: rstripEq l := by
  unfold rstripEq
  rw [List.reverse_cons, List.dropWhile_append]
  split
  · rename_i hempty
    have hl : (l.reverse.dropWhile (fun c => c = '=')) = [] := by
      simpa [List.isEmpty_iff] using hempty
    rw [hl]
    simp [List.dropWhile, hx]
  · simp

theorem rstripEq_strip : ∀ (bs : List Nat), rstripEq (b64EncodePadded bs) = b64Stripped bs
  | a :: b :: c :: rest => by
    show rstripEq (_ :: _ :: _ :: _ :: b64EncodePadded rest) = _
    rw [rstripEq_cons _ _ (sextetChar_ne_pad _), rstripEq_cons _ _ (sextetChar_ne_pad _),
      rstripEq_cons _ _ (sextetChar_ne_pad _), rstripEq_cons _ _ (sextetChar_ne_pad _),
      rstripEq_strip rest]
    rfl
  | [a, b] => by
    show rstripEq [_, _, _, '='] = _
    unfold rstripEq
    simp [List.dropWhile, sextetChar_ne_pad]
    rfl
  | [a] => by
    show rstripEq [_, _, '=', '='] = _
    unfold rstripEq
    simp [List.dropWhile, sextetChar_ne_pad]
    rfl
  | [] => rfl

theorem b64pad_append4 (w t : List Char) (hw : w.length % 4 = 0) :
    b64pad (w ++ t) = w ++ b64pad t := by
  unfold b64pad
  rw [List.length_append]
  have h : (4 - (w.length + t.length) % 4) % 4 = (4 - t.length % 4) % 4 := by omega
  rw [h, List.append_assoc]

theorem b64pad_stripped : ∀ (bs : List Nat), b64pad (b64Stripped bs) = b64EncodePadded bs
  | a :: b :: c :: rest => by
    show b64pad ([_, _, _, _] ++ b64Stripped rest) = _ :: _ :: _ :: _ :: b64EncodePadded rest
    rw [b64pad_append4 _ _ (by simp), b64pad_stripped rest]
    rfl
  | [a, b] => by
    show b64pad [_, _, _] = _
    unfold b64pad
    rfl
  | [a] => by
    show b64pad [_, _] = _
    unfold b64pad
    rfl
  | [] => rfl

theorem b64_decode_encode : ∀ (bs : List Nat), (∀ x ∈ bs, x < 256) →
    b64DecodePadded (b64EncodePadded bs) = some bs
  | [] => fun _ => rfl
  | [a] => fun h => by
      have ha : a < 256 := h a (by simp)
      show b64DecodePadded [_, _, '=', '='] = _
      unfold b64DecodePadded
      rw [charSextet_sextetChar (a / 4) (by omega),
        charSextet_sextetChar ((a % 4) * 16) (by omega)]
      dsimp only
      simp
      omega
  | [a, b] => fun h => by
      have ha : a < 256 := h a (by simp)
      have hb : b < 256 := h b (by simp)
      show b64DecodePadded [_, _, _, '='] = _
      unfold b64DecodePadded
      rw [charSextet_sextetChar (a / 4) (by omega),
        charSextet_sextetChar ((a % 4) * 16 + b / 16) (by omega)]
      dsimp only
      rw [if_neg (sextetChar_ne_pad ((b % 16) * 4))]
      rw [charSextet_sextetChar ((b % 16) * 4) (by omega)]
      dsimp only
      simp only [reduceIte, List.isEmpty_nil, Option.some.injEq, List.cons.injEq, and_true]
      constructor <;> omega
  | a :: b :: c :: rest => fun h => by
      have ha : a < 256 := h a (by simp)
      have hb : b < 256 := h b (by simp)
      have hc : c < 256 := h c (by simp)
      show b64DecodePadded (_ :: _ :: _ :: _ :: b64EncodePadded rest) = _
      unfold b64DecodePadded
      rw [charSextet_sextetChar (a / 4) (by omega),
        charSextet_sextetChar ((a % 4) * 16 + b / 16) (by omega)]
      dsimp only
      rw [if_neg (sextetChar_ne_pad ((b % 16) * 4 + c / 64))]
      rw [charSextet_sextetChar ((b % 16) * 4 + c / 64) (by omega)]
      dsimp only
      rw [if_neg (sextetChar_ne_pad (c % 64))]
      rw [charSextet_sextetChar (c % 64) (by omega)]
      dsimp only
      rw [b64_decode_encode rest (fun x hx => h x (by simp [hx]))]
      simp only [Option.some.injEq, List.cons.injEq]
      refine ⟨by omega, by omega, by omega, trivial⟩

theorem char_toNat_valid (c : Char) :
    c.toNat < 55296 ∨ (57343 < c.toNat ∧ c.toNat < 1114112) := by
  rcases c.valid with h | ⟨h1, h2⟩
  · exact Or.inl (UInt32.toNat_lt_of_lt (by norm_num) h)
  · exact Or.inr ⟨UInt32.lt_toNat_of_lt (by norm_num) h1,
      UInt32.toNat_lt_of_lt (by norm_num) h2⟩

theorem char_toNat_ofNat (n : Nat) (h : n < 55296 ∨ (57343 < n ∧ n < 1114112)) :
    (Char.ofNat n).toNat = n := by
  have hv : n.isValidChar := by
    rcases h with h | ⟨h1, h2⟩
    · exact Or.inl h
    · exact Or.inr ⟨h1, h2⟩
  unfold Char.ofNat
  rw [dif_pos hv]
  rfl

theorem utf8Encode_ascii (l : List Char) (h : ∀ c ∈ l, c.toNat < 128) :
    utf8Encode l = l.map Char.toNat := by
  induction l with
  | nil => rfl
  | cons c rest ih =>
    have hc : c.toNat < 128 := h c (by simp)
    show utf8EncodeChar c ++ utf8Encode rest = _
    rw [ih (fun x hx => h x (by simp [hx]))]
    unfold utf8EncodeChar
    rw [if_pos hc]
    rfl

theorem utf8DecodeAux_ascii : ∀ (fuel : Nat) (l : List Char), l.length ≤ fuel →
    (∀ c ∈ l, c.toNat < 128) → utf8DecodeAux fuel (l.map Char.toNat) = some l := by
  intro fuel
  induction fuel with
  | zero =>
    intro l hl _
    cases l with
    | nil => rfl
    | cons c rest => simp at hl
  | succ fuel ih =>
    intro l hl h
    cases l with
    | nil => rfl
    | cons c rest =>
      have hc : c.toNat < 128 := h c (by simp)
      show utf8DecodeAux (fuel + 1) (c.toNat :: rest.map Char.toNat) = _
      unfold utf8DecodeAux
      dsimp only
      rw [if_pos (by omega : c.toNat ≤ 127)]
      rw [ih rest (by simpa using Nat.le_of_succ_le_succ hl)
        (fun x hx => h x (by simp [hx]))]
      simp [Char.ofNat_toNat]

theorem utf8_ascii_roundtrip (l : List Char) (h : ∀ c ∈ l, c.toNat < 128) :
    utf8DecodeAll (l.map Char.toNat) = some l := by
  unfold utf8DecodeAll
  rw [List.length_map]
  exact utf8DecodeAux_ascii l.length l (le_refl _) h

/-- A character sequence that can legally follow a serialized JSON value
inside a minified document: end of input, a comma, or a closing
bracket/brace. -/
def boundary : List Char → Bool
  | [] => true
  | c :: _ => c = ',' || c = ']' || c = '\x7d'

theorem digit_ne (d : Char) (hd : isAsciiDigit d = true) (c : Char)
    (hc : isAsciiDigit c = false) : ¬ d = c := by
  intro h
  rw [h, hc] at hd
  exact Bool.noConfusion hd

theorem natRep_prop : ∀ n : Nat, natRep n ≠ [] ∧
    (∀ c ∈ natRep n, isAsciiDigit c = true) ∧ digitsToNat (natRep n) = n := by
  intro n
  induction n using Nat.strong_induction_on with
  | _ n ih =>
    rw [natRep]
    by_cases h : n < 10
    · rw [dif_pos h]
      have ht : (Char.ofNat (48 + n)).toNat = 48 + n :=
        char_toNat_ofNat _ (Or.inl (by omega))
      refine ⟨by simp, ?_, ?_⟩
      · intro c hc
        rw [List.mem_singleton] at hc
        subst hc
        simp only [isAsciiDigit, ht, Bool.and_eq_true, decide_eq_true_eq]
        omega
      · simp only [digitsToNat, List.foldl_cons, List.foldl_nil, ht]
        omega
    · rw [dif_neg h]
      obtain ⟨hne, hdig, hval⟩ := ih (n / 10) (Nat.div_lt_self (by omega) (by omega))
      have hm : n % 10 < 10 := Nat.mod_lt n (by omega)
      have ht : (Char.ofNat (48 + n % 10)).toNat = 48 + n % 10 :=
        char_toNat_ofNat _ (Or.inl (by omega))
      refine ⟨by simp, ?_, ?_⟩
      · intro c hc
        rw [List.mem_append] at hc
        rcases hc with hc | hc
        · exact hdig c hc
        · rw [List.mem_singleton] at hc
          subst hc
          simp only [isAsciiDigit, ht, Bool.and_eq_true, decide_eq_true_eq]
          omega
      · simp only [digitsToNat] at hval ⊢
        rw [List.foldl_append, hval]
        simp only [List.foldl_cons, List.foldl_nil, ht]
        omega

theorem takeWhile_append_all (p : Char → Bool) : ∀ (l1 l2 : List Char),
    (∀ c ∈ l1, p c = true) →
    (l1 ++ l2).takeWhile p = l1 ++ l2.takeWhile p
  | [], _, _ => rfl
  | c :: t, l2, h => by
    have hc : p c = true := h c (by simp)
    simp only [List.cons_append, List.takeWhile_cons, hc, if_true]
    rw [takeWhile_append_all p t l2 (fun x hx => h x (by simp [hx]))]

theorem boundary_not_digit (rest : List Char) (h : boundary rest = true) :
    rest.takeWhile isAsciiDigit = [] := by
  cases rest with
  | nil => rfl
  | cons c t =>
    simp only [boundary, Bool.or_eq_true, decide_eq_true_eq] at h
    rcases h with (h | h) | h <;> subst h <;> rfl

theorem parseNatToken_natRep (m : Nat) (rest : List Char)
    (hrest : boundary rest = true) :
    parseNatToken (natRep m ++ rest) = some (m, rest) := by
  obtain ⟨hne, hdig, hval⟩ := natRep_prop m
  have htake : (natRep m ++ rest).takeWhile isAsciiDigit = natRep m := by
    rw [takeWhile_append_all isAsciiDigit _ _ hdig, boundary_not_digit rest hrest,
      List.append_nil]
  have hF : (natRep m).isEmpty = false := by
    cases hnr : natRep m with
    | nil => exact absurd hnr hne
    | cons a t => rfl
  simp only [parseNatToken, htake, hF, Bool.false_eq_true, if_false]
  rw [hval, List.drop_left]

theorem parseIntToken_natRep (m : Nat) (neg : Bool) (rest : List Char)
    (hrest : boundary rest = true) :
    parseIntToken (natRep m ++ rest) neg
      = some (.jint (if neg then -(m : Int) else (m : Int)), rest) := by
  simp only [parseIntToken, parseNatToken_natRep m rest hrest]
  cases rest with
  | nil => rfl
  | cons c t =>
    simp only [boundary, Bool.or_eq_true, decide_eq_true_eq] at hrest
    have hc : (c = '.' || c = 'e' || c = 'E') = false := by
      rcases hrest with (h | h) | h <;> subst h <;> rfl
    dsimp only
    rw [hc]
    simp

theorem hexVal_hexDigitChar : ∀ d < 16, hexVal (hexDigitChar d) = some d := by decide

theorem hex4_escU (x : Nat) (hx : x < 65536) :
    hex4 (hexDigitChar (x / 4096 % 16)) (hexDigitChar (x / 256 % 16))
      (hexDigitChar (x / 16 % 16)) (hexDigitChar (x % 16)) = some x := by
  have h1 := hexVal_hexDigitChar (x / 4096 % 16) (Nat.mod_lt _ (by omega))
  have h2 := hexVal_hexDigitChar (x / 256 % 16) (Nat.mod_lt _ (by omega))
  have h3 := hexVal_hexDigitChar (x / 16 % 16) (Nat.mod_lt _ (by omega))
  have h4 := hexVal_hexDigitChar (x % 16) (Nat.mod_lt _ (by omega))
  simp only [hex4, h1, h2, h3, h4]
  congr 1
  omega


theorem parseStringBody_escapeChar (c : Char) (t : List Char) :
    parseStringBody (escapeChar c ++ t) = consStr c (parseStringBody t) := by
  have hva := char_toNat_valid c
  by_cases h1 : c = '\\'
  · subst h1
    simp [escapeChar, parseStringBody, parseEscape]
  · by_cases h2 : c = '"'
    · subst h2
      simp [escapeChar, parseStringBody, parseEscape]
    · by_cases h3 : c.toNat = 8
      · simp [escapeChar, h1, h2, h3, parseStringBody, parseEscape]
        rw [← h3, Char.ofNat_toNat]
      · by_cases h4 : c.toNat = 9
        · simp [escapeChar, h1, h2, h3, h4, parseStringBody, parseEscape]
          rw [← h4, Char.ofNat_toNat]
        · by_cases h5 : c.toNat = 10
          · simp [escapeChar, h1, h2, h3, h4, h5, parseStringBody, parseEscape]
            rw [← h5, Char.ofNat_toNat]
          · by_cases h6 : c.toNat = 12
            · simp [escapeChar, h1, h2, h3, h4, h5, h6, parseStringBody, parseEscape]
              rw [← h6, Char.ofNat_toNat]
            · by_cases h7 : c.toNat = 13
              · simp [escapeChar, h1, h2, h3, h4, h5, h6, h7, parseStringBody,
                  parseEscape]
                rw [← h7, Char.ofNat_toNat]
              · by_cases h8 : c.toNat < 32 ∨ 126 < c.toNat
                · have h8b : (decide (c.toNat < 32) || decide (126 < c.toNat)) = true := by
                    simp only [Bool.or_eq_true, decide_eq_true_eq]
                    exact h8
                  by_cases h9 : 65535 < c.toNat
                  · have hup : c.toNat < 1114112 := by
                      rcases hva with hva | hva
                      · omega
                      · exact hva.2
                    simp [escapeChar, h1, h2, h3, h4, h5, h6, h7, h8b, h9, escU,
                      parseStringBody, parseEscape, parseUnicodeEscape]
                    rw [hex4_escU (55296 + (c.toNat - 65536) / 1024) (by omega)]
                    dsimp only
                    rw [if_pos (by omega)]
                    simp only [parseLowSurrogate]
                    rw [if_pos (by decide)]
                    rw [hex4_escU (56320 + (c.toNat - 65536) % 1024) (by omega)]
                    dsimp only
                    rw [if_pos (by
                      first
                      | omega
                      | (simp only [Bool.and_eq_true, decide_eq_true_eq]; omega))]
                    rw [show 65536 + (55296 + (c.toNat - 65536) / 1024 - 55296) * 1024
                        + (56320 + (c.toNat - 65536) % 1024 - 56320) = c.toNat by omega]
                    rw [Char.ofNat_toNat]
                  · simp [escapeChar, h1, h2, h3, h4, h5, h6, h7, h8b, h9, escU,
                      parseStringBody, parseEscape, parseUnicodeEscape]
                    rw [hex4_escU c.toNat (by omega)]
                    dsimp only
                    rw [if_neg (by omega)]
                    rw [if_neg (by omega)]
                    rw [Char.ofNat_toNat]
                · have h8b : (decide (c.toNat < 32) || decide (126 < c.toNat)) = false := by
                    simp only [Bool.or_eq_false_iff, decide_eq_false_iff_not]
                    omega
                  have h32 : ¬ c.toNat < 32 := by omega
                  have h126 : ¬ 126 < c.toNat := by omega
                  simp [escapeChar, h1, h2, h3, h4, h5, h6, h7, h8b, h32, h126,
                    parseStringBody]

theorem parseStringBody_escapeString : ∀ (s rest : List Char),
    parseStringBody (escapeString s ++ '"' :: rest) = some (s, rest)
  | [], rest => by
    show parseStringBody ('"' :: rest) = some ([], rest)
    simp [parseStringBody]
  | c :: s, rest => by
    show parseStringBody ((escapeChar c ++ escapeString s) ++ '"' :: rest) = _
    rw [List.append_assoc, parseStringBody_escapeChar,
      parseStringBody_escapeString s rest]
    rfl

theorem hexDigitChar_ascii (n : Nat) (h : n < 16) : (hexDigitChar n).toNat < 128 :=
  (by decide : ∀ m < 16, (hexDigitChar m).toNat < 128) n h

theorem escU_ascii (n : Nat) : ∀ x ∈ escU n, x.toNat < 128 := by
  intro x hx
  simp only [escU, List.mem_cons, List.not_mem_nil, or_false] at hx
  rcases hx with rfl | rfl | rfl | rfl | rfl | rfl
  · decide
  · decide
  · exact hexDigitChar_ascii _ (Nat.mod_lt _ (by omega))
  · exact hexDigitChar_ascii _ (Nat.mod_lt _ (by omega))
  · exact hexDigitChar_ascii _ (Nat.mod_lt _ (by omega))
  · exact hexDigitChar_ascii _ (Nat.mod_lt _ (by omega))

theorem escapeChar_ascii (c : Char) : ∀ x ∈ escapeChar c, x.toNat < 128 := by
  intro x hx
  by_cases h1 : c = '\\'
  · subst h1
    simp [escapeChar] at hx
    rcases hx with rfl | rfl <;> decide
  · by_cases h2 : c = '"'
    · subst h2
      simp [escapeChar] at hx
      rcases hx with rfl | rfl <;> decide
    · by_cases h3 : c.toNat = 8
      · simp [escapeChar, h1, h2, h3] at hx
        rcases hx with rfl | rfl <;> decide
      · by_cases h4 : c.toNat = 9
        · simp [escapeChar, h1, h2, h3, h4] at hx
          rcases hx with rfl | rfl <;> decide
        · by_cases h5 : c.toNat = 10
          · simp [escapeChar, h1, h2, h3, h4, h5] at hx
            rcases hx with rfl | rfl <;> decide
          · by_cases h6 : c.toNat = 12
            · simp [escapeChar, h1, h2, h3, h4, h5, h6] at hx
              rcases hx with rfl | rfl <;> decide
            · by_cases h7 : c.toNat = 13
              · simp [escapeChar, h1, h2, h3, h4, h5, h6, h7] at hx
                rcases hx with rfl | rfl <;> decide
              · by_cases h8 : c.toNat < 32 ∨ 126 < c.toNat
                · have h8b : (decide (c.toNat < 32) || decide (126 < c.toNat)) = true := by
                    simp only [Bool.or_eq_true, decide_eq_true_eq]
                    exact h8
                  by_cases h9 : 65535 < c.toNat
                  · simp only [escapeChar, if_neg h1, if_neg h2, if_neg h3, if_neg h4,
                      if_neg h5, if_neg h6, if_neg h7, h8b, if_true, if_pos h9] at hx
                    rw [List.mem_append] at hx
                    rcases hx with hx | hx
                    · exact escU_ascii _ x hx
                    · exact escU_ascii _ x hx
                  · simp only [escapeChar, if_neg h1, if_neg h2, if_neg h3, if_neg h4,
                      if_neg h5, if_neg h6, if_neg h7, h8b, if_true, if_neg h9] at hx
                    exact escU_ascii _ x hx
                · have h8b : (decide (c.toNat < 32) || decide (126 < c.toNat)) = false := by
                    simp only [Bool.or_eq_false_iff, decide_eq_false_iff_not]
                    omega
                  simp only [escapeChar, if_neg h1, if_neg h2, if_neg h3, if_neg h4,
                    if_neg h5, if_neg h6, if_neg h7, h8b, Bool.false_eq_true, if_false,
                    List.mem_singleton] at hx
                  subst hx
                  omega

theorem escapeString_ascii (s : List Char) : ∀ x ∈ escapeString s, x.toNat < 128 := by
  intro x hx
  rw [escapeString, List.mem_flatMap] at hx
  obtain ⟨a, _, hmem⟩ := hx
  exact escapeChar_ascii a x hmem

theorem natRep_ascii (m : Nat) : ∀ c ∈ natRep m, c.toNat < 128 := by
  intro c hc
  have h := (natRep_prop m).2.1 c hc
  simp only [isAsciiDigit, Bool.and_eq_true, decide_eq_true_eq] at h
  omega

theorem intRep_ascii (n : Int) : ∀ c ∈ intRep n, c.toNat < 128 := by
  intro c hc
  rw [intRep] at hc
  by_cases h : n < 0
  · rw [if_pos h, List.mem_cons] at hc
    rcases hc with rfl | hc
    · decide
    · exact natRep_ascii _ c hc
  · rw [if_neg h] at hc
    exact natRep_ascii _ c hc

theorem json_sizeOf_pos (v : Json) : 0 < sizeOf v := by
  cases v <;> simp

theorem jlist_sizeOf_pos (xs : List Json) : 0 < sizeOf xs := by
  cases xs <;> simp

theorem jmlist_sizeOf_pos (ms : List (String × Json)) : 0 < sizeOf ms := by
  cases ms <;> simp

theorem jdump_ascii_ind : ∀ N : Nat,
    (∀ v : Json, sizeOf v ≤ N → jsonFloatFree v = true →
      ∀ c ∈ jdump v, c.toNat < 128) ∧
    (∀ xs : List Json, sizeOf xs ≤ N → jsonFloatFreeList xs = true →
      ∀ c ∈ jdumpArrTail xs, c.toNat < 128) ∧
    (∀ ms : List (String × Json), sizeOf ms ≤ N → jsonFloatFreeMembers ms = true →
      ∀ c ∈ jdumpObjTail ms, c.toNat < 128) := by
  intro N
  induction N with
  | zero =>
    refine ⟨?_, ?_, ?_⟩
    · intro v hs
      exact absurd hs (by have := json_sizeOf_pos v; omega)
    · intro xs hs
      exact absurd hs (by have := jlist_sizeOf_pos xs; omega)
    · intro ms hs
      exact absurd hs (by have := jmlist_sizeOf_pos ms; omega)
  | succ N ih =>
    obtain ⟨ihv, ihl, ihm⟩ := ih
    refine ⟨?_, ?_, ?_⟩
    · intro v hs hf c hc
      cases v with
      | jnull => fin_cases hc <;> decide
      | jbool b => cases b <;> (fin_cases hc <;> decide)
      | jint n => exact intRep_ascii n c hc
      | jfloat q => exact absurd hf (by simp [jsonFloatFree])
      | jnan => fin_cases hc <;> decide
      | jinf b => cases b <;> (fin_cases hc <;> decide)
      | jstr s =>
        simp only [jdump, List.mem_cons, List.mem_append, List.mem_singleton,
          List.not_mem_nil, or_false] at hc
        repeat' rcases hc with hc | hc
        all_goals first
          | decide
          | (exact escapeString_ascii _ c hc)
      | jarr xs =>
        cases xs with
        | nil => fin_cases hc <;> decide
        | cons x xs =>
          simp only [jdump, List.mem_cons, List.mem_append, List.mem_singleton,
            List.not_mem_nil, or_false] at hc
          simp only [jsonFloatFree, jsonFloatFreeList, Bool.and_eq_true] at hf
          simp only [Json.jarr.sizeOf_spec, List.cons.sizeOf_spec] at hs
          repeat' rcases hc with hc | hc
          all_goals first
            | decide
            | (exact ihv x (by omega) hf.1 c hc)
            | (exact ihl xs (by omega) hf.2 c hc)
      | jobj ms =>
        cases ms with
        | nil => fin_cases hc <;> decide
        | cons m ms =>
          obtain ⟨k, v⟩ := m
          simp only [jdump, List.mem_cons, List.mem_append, List.mem_singleton,
            List.not_mem_nil, or_false] at hc
          simp only [jsonFloatFree, jsonFloatFreeMembers, Bool.and_eq_true] at hf
          simp only [Json.jobj.sizeOf_spec, List.cons.sizeOf_spec,
            Prod.mk.sizeOf_spec] at hs
          repeat' rcases hc with hc | hc
          all_goals first
            | decide
            | (exact escapeString_ascii _ c hc)
            | (exact ihv v (by omega) hf.1 c hc)
            | (exact ihm ms (by omega) hf.2 c hc)
    · intro xs hs hf c hc
      cases xs with
      | nil => simp [jdumpArrTail] at hc
      | cons x xs =>
        simp only [jdumpArrTail, List.mem_cons, List.mem_append,
          List.not_mem_nil, or_false] at hc
        simp only [jsonFloatFreeList, Bool.and_eq_true] at hf
        simp only [List.cons.sizeOf_spec] at hs
        repeat' rcases hc with hc | hc
        all_goals first
          | decide
          | (exact ihv x (by omega) hf.1 c hc)
          | (exact ihl xs (by omega) hf.2 c hc)
    · intro ms hs hf c hc
      cases ms with
      | nil => simp [jdumpObjTail] at hc
      | cons m ms =>
        obtain ⟨k, v⟩ := m
        simp only [jdumpObjTail, List.mem_cons, List.mem_append,
          List.not_mem_nil, or_false] at hc
        simp only [jsonFloatFreeMembers, Bool.and_eq_true] at hf
        simp only [List.cons.sizeOf_spec, Prod.mk.sizeOf_spec] at hs
        repeat' rcases hc with hc | hc
        all_goals first
          | decide
          | (exact escapeString_ascii _ c hc)
          | (exact ihv v (by omega) hf.1 c hc)
          | (exact ihm ms (by omega) hf.2 c hc)

theorem jdump_ascii (v : Json) (hf : jsonFloatFree v = true) :
    ∀ c ∈ jdump v, c.toNat < 128 :=
  (jdump_ascii_ind (sizeOf v)).1 v (le_refl _) hf

theorem jfuel_bound_ind : ∀ N : Nat,
    (∀ v : Json, sizeOf v ≤ N → jfuel v ≤ (jdump v).length + 1) ∧
    (∀ xs : List Json, sizeOf xs ≤ N → jtailFuel xs ≤ (jdumpArrTail xs).length + 2) ∧
    (∀ ms : List (String × Json), sizeOf ms ≤ N →
      jmtailFuel ms ≤ (jdumpObjTail ms).length + 2) := by
  intro N
  induction N with
  | zero =>
    refine ⟨?_, ?_, ?_⟩
    · intro v hs
      exact absurd hs (by have := json_sizeOf_pos v; omega)
    · intro xs hs
      exact absurd hs (by have := jlist_sizeOf_pos xs; omega)
    · intro ms hs
      exact absurd hs (by have := jmlist_sizeOf_pos ms; omega)
  | succ N ih =>
    obtain ⟨ihv, ihl, ihm⟩ := ih
    refine ⟨?_, ?_, ?_⟩
    · intro v hs
      cases v with
      | jnull => decide
      | jbool b => cases b <;> decide
      | jint n =>
        show 1 ≤ (intRep n).length + 1
        omega
      | jfloat q =>
        show 1 ≤ (floatReprPlaceholder q).length + 1
        omega
      | jnan => decide
      | jinf b => cases b <;> decide
      | jstr s =>
        show 1 ≤ ('"' :: (escapeString s.toList ++ ['"'])).length + 1
        omega
      | jarr xs =>
        cases xs with
        | nil => decide
        | cons x xs =>
          simp only [Json.jarr.sizeOf_spec, List.cons.sizeOf_spec] at hs
          have hx := ihv x (by omega)
          have hxs := ihl xs (by omega)
          show 1 + max (jfuel x) (jtailFuel xs)
            ≤ ('[' :: (jdump x ++ jdumpArrTail xs ++ [']'])).length + 1
          simp only [List.length_cons, List.length_append, List.length_singleton]
          rcases Nat.le_total (jfuel x) (jtailFuel xs) with h | h
          · rw [Nat.max_eq_right h]
            omega
          · rw [Nat.max_eq_left h]
            omega
      | jobj ms =>
        cases ms with
        | nil => decide
        | cons m ms =>
          obtain ⟨k, v⟩ := m
          simp only [Json.jobj.sizeOf_spec, List.cons.sizeOf_spec,
            Prod.mk.sizeOf_spec] at hs
          have hv := ihv v (by omega)
          have hms := ihm ms (by omega)
          show 1 + max (jfuel v) (jmtailFuel ms)
            ≤ ('\x7b' :: ('"' :: (escapeString k.toList ++ '"' :: ':' :: jdump v)
              ++ jdumpObjTail ms ++ ['\x7d'])).length + 1
          simp only [List.length_cons, List.length_append, List.length_singleton]
          rcases Nat.le_total (jfuel v) (jmtailFuel ms) with h | h
          · rw [Nat.max_eq_right h]
            omega
          · rw [Nat.max_eq_left h]
            omega
    · intro xs hs
      cases xs with
      | nil => decide
      | cons x xs =>
        simp only [List.cons.sizeOf_spec] at hs
        have hx := ihv x (by omega)
        have hxs := ihl xs (by omega)
        show 1 + max (jfuel x) (jtailFuel xs)
          ≤ (',' :: (jdump x ++ jdumpArrTail xs)).length + 2
        simp only [List.length_cons, List.length_append]
        rcases Nat.le_total (jfuel x) (jtailFuel xs) with h | h
        · rw [Nat.max_eq_right h]
          omega
        · rw [Nat.max_eq_left h]
          omega
    · intro ms hs
      cases ms with
      | nil => decide
      | cons m ms =>
        obtain ⟨k, v⟩ := m
        simp only [List.cons.sizeOf_spec, Prod.mk.sizeOf_spec] at hs
        have hv := ihv v (by omega)
        have hms := ihm ms (by omega)
        show 1 + max (jfuel v) (jmtailFuel ms)
          ≤ ((',' :: ('"' :: (escapeString k.toList ++ '"' :: ':' :: jdump v)))
            ++ jdumpObjTail ms).length + 2
        simp only [List.length_cons, List.length_append]
        rcases Nat.le_total (jfuel v) (jmtailFuel ms) with h | h
        · rw [Nat.max_eq_right h]
          omega
        · rw [Nat.max_eq_left h]
          omega

theorem jfuel_bound (v : Json) : jfuel v ≤ (jdump v).length + 1 :=
  (jfuel_bound_ind (sizeOf v)).1 v (le_refl _)

theorem jdump_head (v : Json) (hf : jsonFloatFree v = true) :
    ∃ d t, jdump v = d :: t ∧ ¬ d = ']' := by
  cases v with
  | jnull => exact ⟨'n', _, rfl, by decide⟩
  | jbool b => cases b with
    | true => exact ⟨'t', _, rfl, by decide⟩
    | false => exact ⟨'f', _, rfl, by decide⟩
  | jint n =>
    by_cases h : n < 0
    · refine ⟨'-', natRep n.natAbs, ?_, by decide⟩
      rw [jdump, intRep, if_pos h]
    · obtain ⟨hne, hdig, _⟩ := natRep_prop n.natAbs
      cases hrep : natRep n.natAbs with
      | nil => exact absurd hrep hne
      | cons d t' =>
        refine ⟨d, t', ?_, ?_⟩
        · rw [jdump, intRep, if_neg h, hrep]
        · exact digit_ne d (hdig d (by rw [hrep]; simp)) ']' (by decide)
  | jfloat q => exact absurd hf (by simp [jsonFloatFree])
  | jnan => exact ⟨'N', _, rfl, by decide⟩
  | jinf b => cases b with
    | true => exact ⟨'-', _, rfl, by decide⟩
    | false => exact ⟨'I', _, rfl, by decide⟩
  | jstr s => exact ⟨'"', _, rfl, by decide⟩
  | jarr xs => cases xs with
    | nil => exact ⟨'[', _, rfl, by decide⟩
    | cons x xs => exact ⟨'[', _, rfl, by decide⟩
  | jobj ms => cases ms with
    | nil => exact ⟨'\x7b', _, rfl, by decide⟩
    | cons m ms =>
      obtain ⟨k, v⟩ := m
      exact ⟨'\x7b', _, rfl, by decide⟩

theorem parseJson_null (fuel : Nat) (r : List Char) :
    parseJson (fuel + 1) ('n' :: 'u' :: 'l' :: 'l' :: r) = some (.jnull, r) := rfl

theorem parseJson_true (fuel : Nat) (r : List Char) :
    parseJson (fuel + 1) ('t' :: 'r' :: 'u' :: 'e' :: r) = some (.jbool true, r) := rfl

theorem parseJson_false (fuel : Nat) (r : List Char) :
    parseJson (fuel + 1) ('f' :: 'a' :: 'l' :: 's' :: 'e' :: r)
      = some (.jbool false, r) := rfl

theorem parseJson_nan (fuel : Nat) (r : List Char) :
    parseJson (fuel + 1) ('N' :: 'a' :: 'N' :: r) = some (.jnan, r) := rfl

theorem parseJson_inf (fuel : Nat) (r : List Char) :
    parseJson (fuel + 1)
        ('I' :: 'n' :: 'f' :: 'i' :: 'n' :: 'i' :: 't' :: 'y' :: r)
      = some (.jinf false, r) := rfl

theorem parseJson_quote (fuel : Nat) (l : List Char) :
    parseJson (fuel + 1) ('"' :: l)
      = match parseStringBody l with
        | some (s, r) => some (.jstr (String.mk s), r)
        | Option.none => Option.none := rfl

theorem parseJson_lbrack (fuel : Nat) (l : List Char) :
    parseJson (fuel + 1) ('[' :: l)
      = match l with
        | ']' :: r => some (.jarr [], r)
        | _ =>
          match parseJson fuel l with
          | some (v, r) =>
            (match parseArrTail fuel r with
             | some (vs, r2) => some (.jarr (v :: vs), r2)
             | Option.none => Option.none)
          | Option.none => Option.none := rfl

theorem parseJson_lbrace (fuel : Nat) (l : List Char) :
    parseJson (fuel + 1) ('\x7b' :: l)
      = match l with
        | '\x7d' :: r => some (.jobj [], r)
        | '"' :: rest2 =>
          (match parseStringBody rest2 with
           | some (k, r) =>
             (match r with
              | ':' :: r2 =>
                (match parseJson fuel r2 with
                 | some (v, r3) =>
                   (match parseObjTail fuel r3 with
                    | some (ms, r4) => some (.jobj ((String.mk k, v) :: ms), r4)
                    | Option.none => Option.none)
                 | Option.none => Option.none)
              | _ => Option.none)
           | Option.none => Option.none)
        | _ => Option.none := rfl

theorem parseJson_dash (fuel : Nat) (l : List Char) :
    parseJson (fuel + 1) ('-' :: l)
      = match l with
        | 'I' :: 'n' :: 'f' :: 'i' :: 'n' :: 'i' :: 't' :: 'y' :: r =>
            some (.jinf true, r)
        | _ => parseIntToken l true := rfl

theorem parseArrTail_close (fuel : Nat) (r : List Char) :
    parseArrTail (fuel + 1) (']' :: r) = some ([], r) := rfl

theorem parseArrTail_comma (fuel : Nat) (l : List Char) :
    parseArrTail (fuel + 1) (',' :: l)
      = match parseJson fuel l with
        | some (v, r) =>
          (match parseArrTail fuel r with
           | some (vs, r2) => some (v :: vs, r2)
           | Option.none => Option.none)
        | Option.none => Option.none := rfl

theorem parseObjTail_close (fuel : Nat) (r : List Char) :
    parseObjTail (fuel + 1) ('\x7d' :: r) = some ([], r) := rfl

theorem parseObjTail_comma (fuel : Nat) (l : List Char) :
    parseObjTail (fuel + 1) (',' :: '"' :: l)
      = match parseStringBody l with
        | some (k, r) =>
          (match r with
           | ':' :: r2 =>
             (match parseJson fuel r2 with
              | some (v, r3) =>
                (match parseObjTail fuel r3 with
                 | some (ms, r4) => some ((String.mk k, v) :: ms, r4)
                 | Option.none => Option.none)
              | Option.none => Option.none)
           | _ => Option.none)
        | Option.none => Option.none := rfl

theorem parseJson_digit (fuel : Nat) (c : Char) (l : List Char)
    (hd : isAsciiDigit c = true) :
    parseJson (fuel + 1) (c :: l) = parseIntToken (c :: l) false := by
  simp only [parseJson]
  rw [if_neg (digit_ne c hd 'n' (by decide)), if_neg (digit_ne c hd 't' (by decide)),
    if_neg (digit_ne c hd 'f' (by decide)), if_neg (digit_ne c hd 'N' (by decide)),
    if_neg (digit_ne c hd 'I' (by decide)), if_neg (digit_ne c hd '"' (by decide)),
    if_neg (digit_ne c hd '[' (by decide)), if_neg (digit_ne c hd '\x7b' (by decide)),
    if_neg (digit_ne c hd '-' (by decide)), if_pos hd]

theorem parseJson_lbrace_quote (fuel : Nat) (l : List Char) :
    parseJson (fuel + 1) ('\x7b' :: '"' :: l)
      = match parseStringBody l with
        | some (k, r) =>
          (match r with
           | ':' :: r2 =>
             (match parseJson fuel r2 with
              | some (v, r3) =>
                (match parseObjTail fuel r3 with
                 | some (ms, r4) => some (.jobj ((String.mk k, v) :: ms), r4)
                 | Option.none => Option.none)
              | Option.none => Option.none)
           | _ => Option.none)
        | Option.none => Option.none := rfl

theorem parseObjMember_step (fuel : Nat) (k : List Char) (l : List Char) :
    parseJson (fuel + 1) ('\x7b' :: '"' :: (escapeString k ++ '"' :: ':' :: l))
      = match parseJson fuel l with
        | some (v, r3) =>
          (match parseObjTail fuel r3 with
           | some (ms, r4) => some (.jobj ((String.mk k, v) :: ms), r4)
           | Option.none => Option.none)
        | Option.none => Option.none := by
  rw [parseJson_lbrace_quote, parseStringBody_escapeString]
  rfl

theorem parseObjTail_member (fuel : Nat) (k : List Char) (l : List Char) :
    parseObjTail (fuel + 1) (',' :: '"' :: (escapeString k ++ '"' :: ':' :: l))
      = match parseJson fuel l with
        | some (v, r3) =>
          (match parseObjTail fuel r3 with
           | some (ms, r4) => some ((String.mk k, v) :: ms, r4)
           | Option.none => Option.none)
        | Option.none => Option.none := by
  rw [parseObjTail_comma, parseStringBody_escapeString]
  rfl

theorem jfuel_pos : ∀ v : Json, 1 ≤ jfuel v
  | .jnull => le_refl 1
  | .jbool _ => le_refl 1
  | .jint _ => le_refl 1
  | .jfloat _ => le_refl 1
  | .jnan => le_refl 1
  | .jinf _ => le_refl 1
  | .jstr _ => le_refl 1
  | .jarr [] => le_refl 1
  | .jarr (_ :: _) => Nat.le_add_right 1 _
  | .jobj [] => le_refl 1
  | .jobj ((_, _) :: _) => Nat.le_add_right 1 _

theorem jtailFuel_pos : ∀ xs : List Json, 1 ≤ jtailFuel xs
  | [] => le_refl 1
  | _ :: _ => Nat.le_add_right 1 _

theorem jmtailFuel_pos : ∀ ms : List (String × Json), 1 ≤ jmtailFuel ms
  | [] => le_refl 1
  | (_, _) :: _ => Nat.le_add_right 1 _

theorem boundary_arrTail (xs : List Json) (rest : List Char) :
    boundary (jdumpArrTail xs ++ ']' :: rest) = true := by
  cases xs with
  | nil => rfl
  | cons x xs => rfl

theorem boundary_objTail (ms : List (String × Json)) (rest : List Char) :
    boundary (jdumpObjTail ms ++ '\x7d' :: rest) = true := by
  cases ms with
  | nil => rfl
  | cons m ms =>
    obtain ⟨k, v⟩ := m
    rfl

theorem parse_jdump_ind : ∀ fuel : Nat,
    (∀ (v : Json) (rest : List Char), jsonFloatFree v = true → jfuel v ≤ fuel →
      boundary rest = true → parseJson fuel (jdump v ++ rest) = some (v, rest)) ∧
    (∀ (xs : List Json) (rest : List Char), jsonFloatFreeList xs = true →
      jtailFuel xs ≤ fuel → boundary rest = true →
      parseArrTail fuel (jdumpArrTail xs ++ ']' :: rest) = some (xs, rest)) ∧
    (∀ (ms : List (String × Json)) (rest : List Char), jsonFloatFreeMembers ms = true →
      jmtailFuel ms ≤ fuel → boundary rest = true →
      parseObjTail fuel (jdumpObjTail ms ++ '\x7d' :: rest) = some (ms, rest)) := by
  intro fuel
  induction fuel with
  | zero =>
    refine ⟨?_, ?_, ?_⟩
    · intro v rest _ hfu _
      exact absurd hfu (by have := jfuel_pos v; omega)
    · intro xs rest _ hfu _
      exact absurd hfu (by have := jtailFuel_pos xs; omega)
    · intro ms rest _ hfu _
      exact absurd hfu (by have := jmtailFuel_pos ms; omega)
  | succ fuel ih =>
    obtain ⟨ihv, ihl, ihm⟩ := ih
    refine ⟨?_, ?_, ?_⟩
    · intro v rest hf hfu hrest
      cases v with
      | jnull =>
        simp only [jdump, List.cons_append, List.nil_append]
        exact parseJson_null fuel rest
      | jbool b =>
        cases b with
        | false =>
          simp only [jdump, List.cons_append, List.nil_append]
          exact parseJson_false fuel rest
        | true =>
          simp only [jdump, List.cons_append, List.nil_append]
          exact parseJson_true fuel rest
      | jint n =>
        obtain ⟨hne, hdig, _⟩ := natRep_prop n.natAbs
        by_cases hneg : n < 0
        · simp only [jdump, intRep, if_pos hneg, List.cons_append]
          rw [parseJson_dash]
          cases hrep : natRep n.natAbs with
          | nil => exact absurd hrep hne
          | cons d t =>
            have hd : isAsciiDigit d = true := hdig d (by rw [hrep]; simp)
            rw [List.cons_append]
            split
            · rename_i r heq
              exfalso
              injection heq with h1 _
              exact absurd h1 (digit_ne d hd 'I' (by decide))
            · rw [← List.cons_append, ← hrep, parseIntToken_natRep _ true _ hrest]
              have hval : -((n.natAbs : Int)) = n := by omega
              rw [if_pos rfl, hval]
        · simp only [jdump, intRep, if_neg hneg]
          cases hrep : natRep n.natAbs with
          | nil => exact absurd hrep hne
          | cons d t =>
            have hd : isAsciiDigit d = true := hdig d (by rw [hrep]; simp)
            rw [List.cons_append, parseJson_digit fuel d _ hd,
              ← List.cons_append, ← hrep, parseIntToken_natRep _ false _ hrest]
            have hval : ((n.natAbs : Int)) = n := by omega
            rw [if_neg (by decide), hval]
      | jfloat q => exact absurd hf (by simp [jsonFloatFree])
      | jnan =>
        simp only [jdump, List.cons_append, List.nil_append]
        exact parseJson_nan fuel rest
      | jinf b =>
        cases b with
        | false =>
          simp only [jdump, List.cons_append, List.nil_append]
          exact parseJson_inf fuel rest
        | true =>
          simp only [jdump, List.cons_append, List.nil_append]
          rw [parseJson_dash]
          rfl
      | jstr s =>
        simp only [jdump, List.cons_append, List.append_assoc, List.singleton_append,
          List.nil_append]
        rw [parseJson_quote, parseStringBody_escapeString]
        rfl
      | jarr xs =>
        cases xs with
        | nil =>
          simp only [jdump, List.cons_append, List.nil_append]
          rw [parseJson_lbrack]
          rfl
        | cons x xs =>
          simp only [jsonFloatFree, jsonFloatFreeList, Bool.and_eq_true] at hf
          simp only [jfuel] at hfu
          have hfx : jfuel x ≤ fuel := by
            have := Nat.le_max_left (jfuel x) (jtailFuel xs)
            omega
          have hfxs : jtailFuel xs ≤ fuel := by
            have := Nat.le_max_right (jfuel x) (jtailFuel xs)
            omega
          simp only [jdump, List.cons_append, List.append_assoc,
            List.singleton_append, List.nil_append]
          rw [parseJson_lbrack]
          obtain ⟨d, t, hdt, hdne⟩ := jdump_head x hf.1
          split
          · rename_i r heq
            exfalso
            rw [hdt, List.cons_append] at heq
            injection heq with h1 _
            exact absurd h1 hdne
          · rw [ihv x _ hf.1 hfx (boundary_arrTail xs rest)]
            dsimp only
            rw [ihl xs rest hf.2 hfxs hrest]
      | jobj ms =>
        cases ms with
        | nil =>
          simp only [jdump, List.cons_append, List.nil_append]
          rw [parseJson_lbrace]
          rfl
        | cons m ms =>
          obtain ⟨k, v⟩ := m
          simp only [jsonFloatFree, jsonFloatFreeMembers, Bool.and_eq_true] at hf
          simp only [jfuel] at hfu
          have hfv : jfuel v ≤ fuel := by
            have := Nat.le_max_left (jfuel v) (jmtailFuel ms)
            omega
          have hfms : jmtailFuel ms ≤ fuel := by
            have := Nat.le_max_right (jfuel v) (jmtailFuel ms)
            omega
          simp only [jdump, List.cons_append, List.append_assoc,
            List.singleton_append, List.nil_append]
          rw [parseObjMember_step]
          rw [ihv v _ hf.1 hfv (boundary_objTail ms rest)]
          dsimp only
          rw [ihm ms rest hf.2 hfms hrest]
          rfl
    · intro xs rest hf hfu hrest
      cases xs with
      | nil =>
        simp only [jdumpArrTail, List.nil_append]
        exact parseArrTail_close fuel rest
      | cons x xs =>
        simp only [jsonFloatFreeList, Bool.and_eq_true] at hf
        simp only [jtailFuel] at hfu
        have hfx : jfuel x ≤ fuel := by
          have := Nat.le_max_left (jfuel x) (jtailFuel xs)
          omega
        have hfxs : jtailFuel xs ≤ fuel := by
          have := Nat.le_max_right (jfuel x) (jtailFuel xs)
          omega
        simp only [jdumpArrTail, List.cons_append, List.append_assoc,
          List.nil_append]
        rw [parseArrTail_comma]
        rw [ihv x _ hf.1 hfx (boundary_arrTail xs rest)]
        dsimp only
        rw [ihl xs rest hf.2 hfxs hrest]
    · intro ms rest hf hfu hrest
      cases ms with
      | nil =>
        simp only [jdumpObjTail, List.nil_append]
        exact parseObjTail_close fuel rest
      | cons m ms =>
        obtain ⟨k, v⟩ := m
        simp only [jsonFloatFreeMembers, Bool.and_eq_true] at hf
        simp only [jmtailFuel] at hfu
        have hfv : jfuel v ≤ fuel := by
          have := Nat.le_max_left (jfuel v) (jmtailFuel ms)
          omega
        have hfms : jmtailFuel ms ≤ fuel := by
          have := Nat.le_max_right (jfuel v) (jmtailFuel ms)
          omega
        simp only [jdumpObjTail, List.cons_append, List.append_assoc,
          List.nil_append]
        rw [parseObjTail_member]
        rw [ihv v _ hf.1 hfv (boundary_objTail ms rest)]
        dsimp only
        rw [ihm ms rest hf.2 hfms hrest]
        rfl

theorem jloads_jdump (v : Json) (hf : jsonFloatFree v = true) :
    jloads (jdump v) = some v := by
  unfold jloads
  have h := (parse_jdump_ind ((jdump v).length + 1)).1 v [] hf (jfuel_bound v) rfl
  rw [List.append_nil] at h
  rw [h]

/-- C3: for every cursor payload that is a JSON object with no finite-float
leaf (the decimal rendering of a binary double is a floating-point notion
outside this embedding), decoding the encoded token returns the payload
unchanged, through the full pipeline of `_encode_cursor` / `_decode_cursor`:
minified-JSON serialization, UTF-8 encoding, URL-safe base64 with the
trailing padding stripped, then re-padding, base64 decoding, UTF-8 decoding
and JSON parsing. -/
theorem c3_cursor_roundtrip (ms : List (String × Json))
    (hf : jsonFloatFree (.jobj ms) = true) :
    decodeCursor (encodeCursor (.jobj ms)) = .ok (.jobj ms) := by
  have hascii := jdump_ascii _ hf
  have hbytes : utf8Encode (jdump (.jobj ms)) = (jdump (.jobj ms)).map Char.toNat :=
    utf8Encode_ascii _ hascii
  have hb : ∀ x ∈ (jdump (.jobj ms)).map Char.toNat, x < 256 := by
    intro x hx
    rw [List.mem_map] at hx
    obtain ⟨c, hc, rfl⟩ := hx
    have := hascii c hc
    omega
  unfold encodeCursor decodeCursor
  rw [hbytes, rstripEq_strip, b64pad_stripped, b64_decode_encode _ hb]
  dsimp only
  rw [utf8_ascii_roundtrip _ hascii]
  dsimp only
  rw [jloads_jdump _ hf]

theorem c3_cursor_roundtrip_witness :
    jsonFloatFree (.jobj [("v", .jint 1)]) = true ∧
    decodeCursor (encodeCursor (.jobj [("v", .jint 1)]))
      = .ok (.jobj [("v", .jint 1)]) :=
  ⟨rfl, c3_cursor_roundtrip [("v", .jint 1)] rfl⟩
